import Mathlib

/-!
Verification of the mypacman simulation engine.

This file is a shallow embedding of the core engine of the repository:
`src/mypacman/board.py` (class `Board`) and `src/mypacman/game.py`
(class `Game`).  Python integers become `Int` (scores become `Nat`),
Python floats used by the timing accumulators become `Rat` (the code
only adds, subtracts and compares them), the inner tile grid
`tiles[y][x]` becomes a total function `Int → Int → Nat`, and the two
tunnel sets become boolean membership functions.  The pseudo-random
generator (`random.Random(seed)` / the module-level `random` functions)
is modelled by oracle parameters: a stream of naturals for indexed
choices and a boolean predicate for the braiding coin flips; Python's
generator is a deterministic function of the seed, so a seed
corresponds to a fixed choice of oracles.  All definitions are
executable; rendering and raw-input calls (which the game wraps in
`try/except` and which do not touch engine state) are omitted.
-/

namespace Mypacman

/-- Tile constant `Board.TILE_EMPTY`. -/
def TILE_EMPTY : Nat := 0

/-- Tile constant `Board.TILE_WALL`. -/
def TILE_WALL : Nat := 1

/-- Tile constant `Board.TILE_PELLET`. -/
def TILE_PELLET : Nat := 2

/-- Tile constant `Board.TILE_POWER`. -/
def TILE_POWER : Nat := 3

/-- The inner tile grid, `tiles y x` standing for Python's `tiles[y][x]`. -/
abbrev Tiles := Int → Int → Nat

/-- Assignment `tiles[y][x] = v`. -/
def set2 (t : Tiles) (x y : Int) (v : Nat) : Tiles :=
  fun j i => if j = y ∧ i = x then v else t j i

/-- The board state of `Board` (class in `board.py`): dimensions, tile grid
and the tunnel row/column sets (modelled as membership functions). -/
structure Board where
  width : Int
  height : Int
  tiles : Tiles
  tunnel_rows : Int → Bool
  tunnel_cols : Int → Bool

/-- `Board.__init__` with `generate_maze=False`: dimensions are clamped to at
least 3 and `_init_tiles` leaves the outer ring `TILE_EMPTY` and fills every
interior cell with `TILE_PELLET`; both tunnel sets start empty. -/
def init_board (w h : Int) : Board :=
  { width := max 3 w
    height := max 3 h
    tiles := fun y x =>
      if 1 ≤ y ∧ y ≤ max 3 h - 2 ∧ 1 ≤ x ∧ x ≤ max 3 w - 2 then TILE_PELLET
      else TILE_EMPTY
    tunnel_rows := fun _ => false
    tunnel_cols := fun _ => false }

/-- `Board.center_position`. -/
def center_position (b : Board) : Int × Int :=
  (1 + (b.width - 2) / 2, 1 + (b.height - 2) / 2)

/-- `Board.set_wall`. -/
def set_wall (b : Board) (x y : Int) : Board :=
  { b with tiles := set2 b.tiles x y TILE_WALL }

/-- `Board.set_empty`. -/
def set_empty (b : Board) (x y : Int) : Board :=
  { b with tiles := set2 b.tiles x y TILE_EMPTY }

/-- `Board.set_pellet`. -/
def set_pellet (b : Board) (x y : Int) : Board :=
  { b with tiles := set2 b.tiles x y TILE_PELLET }

/-- `Board.set_power`. -/
def set_power (b : Board) (x y : Int) : Board :=
  { b with tiles := set2 b.tiles x y TILE_POWER }

/-- The interior scan list used by `count_pellets`/`count_power` and the
maze passes: cells `(x, y)` for `y in range(1, height-1)`, `x in
range(1, width-1)`, in Python's iteration order. -/
def inner_list (w h : Int) : List (Int × Int) :=
  (List.range (h - 2).toNat).flatMap (fun (j : Nat) =>
    (List.range (w - 2).toNat).map (fun (i : Nat) => (1 + (i : Int), 1 + (j : Int))))

/-- `Board.count_pellets`: number of interior cells holding `TILE_PELLET`
or `TILE_POWER`. -/
def count_pellets (b : Board) : Nat :=
  (inner_list b.width b.height).countP
    (fun c => b.tiles c.2 c.1 = TILE_PELLET ∨ b.tiles c.2 c.1 = TILE_POWER)

/-- `Board.count_power`. -/
def count_power (b : Board) : Nat :=
  (inner_list b.width b.height).countP (fun c => b.tiles c.2 c.1 = TILE_POWER)

/-- `Board.consume_pellet`: returns the points earned and the updated board. -/
def consume_pellet (b : Board) (x y : Int) : Nat × Board :=
  if b.tiles y x = TILE_PELLET then (10, set_empty b x y)
  else if b.tiles y x = TILE_POWER then (50, set_empty b x y)
  else (0, b)

/-- `Board.is_walkable`. -/
def is_walkable (b : Board) (x y : Int) : Bool :=
  if x ≤ 0 ∨ b.width - 1 ≤ x ∨ y ≤ 0 ∨ b.height - 1 ≤ y then false
  else b.tiles y x != TILE_WALL

/-- `Board.can_move`.  The Python method returns on the first condition that
holds; the checks are flattened here in the same order. -/
def can_move (b : Board) (x y dx dy : Int) : Bool :=
  if is_walkable b (x + dx) (y + dy) then true
  else if dy = 0 ∧ b.tunnel_rows y = true ∧ dx < 0 ∧ x = 1 ∧
          is_walkable b (b.width - 2) y = true then true
  else if dy = 0 ∧ b.tunnel_rows y = true ∧ dx > 0 ∧ x = b.width - 2 ∧
          is_walkable b 1 y = true then true
  else if dx = 0 ∧ b.tunnel_cols x = true ∧ dy < 0 ∧ y = 1 ∧
          is_walkable b x (b.height - 2) = true then true
  else if dx = 0 ∧ b.tunnel_cols x = true ∧ dy > 0 ∧ y = b.height - 2 ∧
          is_walkable b x 1 = true then true
  else false

/-- `Board.apply_move`.  A total function: illegal moves return the origin
unchanged (the method never raises). -/
def apply_move (b : Board) (x y dx dy : Int) : Int × Int :=
  if is_walkable b (x + dx) (y + dy) then (x + dx, y + dy)
  else if dy = 0 ∧ b.tunnel_rows y = true ∧ dx < 0 ∧ x = 1 ∧
          is_walkable b (b.width - 2) y = true then (b.width - 2, y)
  else if dy = 0 ∧ b.tunnel_rows y = true ∧ dx > 0 ∧ x = b.width - 2 ∧
          is_walkable b 1 y = true then (1, y)
  else if dx = 0 ∧ b.tunnel_cols x = true ∧ dy < 0 ∧ y = 1 ∧
          is_walkable b x (b.height - 2) = true then (x, b.height - 2)
  else if dx = 0 ∧ b.tunnel_cols x = true ∧ dy > 0 ∧ y = b.height - 2 ∧
          is_walkable b x 1 = true then (x, 1)
  else (x, y)

/-- Cells outside the interior are never walkable. -/
lemma is_walkable_oob {b : Board} {x y : Int}
    (h : x ≤ 0 ∨ b.width - 1 ≤ x ∨ y ≤ 0 ∨ b.height - 1 ≤ y) :
    is_walkable b x y = false := by
  simp only [is_walkable, if_pos h]

/-- C1.  `apply_move(x,y,dx,dy)` returns the destination `(x+dx, y+dy)`
whenever it is walkable; when moving horizontally on a tunnel row (or
vertically on a tunnel column) off the edge with the opposite-edge cell
walkable it returns that wrapped cell (in particular a left move from
`(1, r)` on a tunnel row `r` yields `(width-2, r)` when walkable); in every
other case it returns the unchanged origin.  The function is total, so no
input can raise an error. -/
theorem apply_move_spec (b : Board) (x y dx dy : Int) :
    (is_walkable b (x + dx) (y + dy) = true →
        apply_move b x y dx dy = (x + dx, y + dy)) ∧
    (dy = 0 ∧ b.tunnel_rows y = true ∧ dx < 0 ∧ x = 1 ∧
        is_walkable b (b.width - 2) y = true →
      apply_move b x y dx dy = (b.width - 2, y)) ∧
    (dy = 0 ∧ b.tunnel_rows y = true ∧ dx > 0 ∧ x = b.width - 2 ∧
        is_walkable b 1 y = true →
      apply_move b x y dx dy = (1, y)) ∧
    (dx = 0 ∧ b.tunnel_cols x = true ∧ dy < 0 ∧ y = 1 ∧
        is_walkable b x (b.height - 2) = true →
      apply_move b x y dx dy = (x, b.height - 2)) ∧
    (dx = 0 ∧ b.tunnel_cols x = true ∧ dy > 0 ∧ y = b.height - 2 ∧
        is_walkable b x 1 = true →
      apply_move b x y dx dy = (x, 1)) ∧
    (is_walkable b (x + dx) (y + dy) = false ∧
      ¬(dy = 0 ∧ b.tunnel_rows y = true ∧ dx < 0 ∧ x = 1 ∧
          is_walkable b (b.width - 2) y = true) ∧
      ¬(dy = 0 ∧ b.tunnel_rows y = true ∧ dx > 0 ∧ x = b.width - 2 ∧
          is_walkable b 1 y = true) ∧
      ¬(dx = 0 ∧ b.tunnel_cols x = true ∧ dy < 0 ∧ y = 1 ∧
          is_walkable b x (b.height - 2) = true) ∧
      ¬(dx = 0 ∧ b.tunnel_cols x = true ∧ dy > 0 ∧ y = b.height - 2 ∧
          is_walkable b x 1 = true) →
      apply_move b x y dx dy = (x, y)) := by
  refine ⟨?_, ?_, ?_, ?_, ?_, ?_⟩
  · intro h
    simp only [apply_move, h, if_pos]
  · rintro ⟨h1, h2, h3, h4, h5⟩
    have hw : is_walkable b (x + dx) (y + dy) = false := by
      apply is_walkable_oob; left; omega
    simp only [apply_move, hw, Bool.false_eq_true, if_false]
    rw [if_pos ⟨h1, h2, h3, h4, h5⟩]
  · rintro ⟨h1, h2, h3, h4, h5⟩
    have hw : is_walkable b (x + dx) (y + dy) = false := by
      apply is_walkable_oob; right; left; omega
    have hnot : ¬(dy = 0 ∧ b.tunnel_rows y = true ∧ dx < 0 ∧ x = 1 ∧
        is_walkable b (b.width - 2) y = true) := by
      rintro ⟨_, _, hlt, hx1, _⟩
      -- x = width-2 and x = 1 would force width = 3, but then dx>0, dx<0 clash
      omega
    simp only [apply_move, hw, Bool.false_eq_true, if_false]
    rw [if_neg hnot, if_pos ⟨h1, h2, h3, h4, h5⟩]
  · rintro ⟨h1, h2, h3, h4, h5⟩
    have hw : is_walkable b (x + dx) (y + dy) = false := by
      apply is_walkable_oob; right; right; left; omega
    have hn1 : ¬(dy = 0 ∧ b.tunnel_rows y = true ∧ dx < 0 ∧ x = 1 ∧
        is_walkable b (b.width - 2) y = true) := by rintro ⟨_, _, h, _, _⟩; omega
    have hn2 : ¬(dy = 0 ∧ b.tunnel_rows y = true ∧ dx > 0 ∧ x = b.width - 2 ∧
        is_walkable b 1 y = true) := by rintro ⟨_, _, h, _, _⟩; omega
    simp only [apply_move, hw, Bool.false_eq_true, if_false]
    rw [if_neg hn1, if_neg hn2, if_pos ⟨h1, h2, h3, h4, h5⟩]
  · rintro ⟨h1, h2, h3, h4, h5⟩
    have hw : is_walkable b (x + dx) (y + dy) = false := by
      apply is_walkable_oob; right; right; right; omega
    have hn1 : ¬(dy = 0 ∧ b.tunnel_rows y = true ∧ dx < 0 ∧ x = 1 ∧
        is_walkable b (b.width - 2) y = true) := by rintro ⟨h, _, _, _, _⟩; omega
    have hn2 : ¬(dy = 0 ∧ b.tunnel_rows y = true ∧ dx > 0 ∧ x = b.width - 2 ∧
        is_walkable b 1 y = true) := by rintro ⟨h, _, _, _, _⟩; omega
    have hn3 : ¬(dx = 0 ∧ b.tunnel_cols x = true ∧ dy < 0 ∧ y = 1 ∧
        is_walkable b x (b.height - 2) = true) := by rintro ⟨_, _, h, _, _⟩; omega
    simp only [apply_move, hw, Bool.false_eq_true, if_false]
    rw [if_neg hn1, if_neg hn2, if_neg hn3, if_pos ⟨h1, h2, h3, h4, h5⟩]
  · rintro ⟨hw, hn1, hn2, hn3, hn4⟩
    simp only [apply_move, hw, Bool.false_eq_true, if_false]
    rw [if_neg hn1, if_neg hn2, if_neg hn3, if_neg hn4]

/-- Test board for the wrap witness: a 7×5 board with default pellets and
row 2 registered as a tunnel row (as `test_wrap_tunnel` does via
`board.tunnel_rows.add`). -/
def board_wrap : Board :=
  { init_board 7 5 with tunnel_rows := fun r => r == 2 }

theorem apply_move_spec_witness :
    apply_move board_wrap 2 2 1 0 = (3, 2) ∧
    apply_move board_wrap 1 2 (-1) 0 = (5, 2) ∧
    apply_move board_wrap 1 1 (-1) 0 = (1, 1) :=
  ⟨(apply_move_spec board_wrap 2 2 1 0).1 (by decide),
   (apply_move_spec board_wrap 1 2 (-1) 0).2.1 (by decide),
   (apply_move_spec board_wrap 1 1 (-1) 0).2.2.2.2.2
     ⟨by decide, by decide, by decide, by decide, by decide⟩⟩

lemma consume_pellet_of_pellet {b : Board} {x y : Int}
    (h : b.tiles y x = TILE_PELLET) :
    consume_pellet b x y = (10, set_empty b x y) := by
  simp [consume_pellet, h]

lemma consume_pellet_of_power {b : Board} {x y : Int}
    (h : b.tiles y x = TILE_POWER) :
    consume_pellet b x y = (50, set_empty b x y) := by
  simp [consume_pellet, h, TILE_POWER, TILE_PELLET]

lemma consume_pellet_of_other {b : Board} {x y : Int}
    (h1 : b.tiles y x ≠ TILE_PELLET) (h2 : b.tiles y x ≠ TILE_POWER) :
    consume_pellet b x y = (0, b) := by
  simp [consume_pellet, h1, h2]

lemma set_empty_tiles_self (b : Board) (x y : Int) :
    (set_empty b x y).tiles y x = TILE_EMPTY := by
  simp [set_empty, set2]

lemma set_empty_tiles_other (b : Board) (x y : Int) {j i : Int}
    (hji : ¬(j = y ∧ i = x)) :
    (set_empty b x y).tiles j i = b.tiles j i := by
  simp only [set_empty, set2, if_neg hji]

/-- C2.  `consume_pellet` turns a `PELLET` into `EMPTY` for 10 points and a
`POWER_PELLET` into `EMPTY` for 50 points, leaving every other cell of the
grid untouched; on any other tile it returns 0 and changes nothing; and a
second consecutive call on the same cell is always a no-op returning 0. -/
theorem consume_pellet_spec (b : Board) (x y : Int) :
    (b.tiles y x = TILE_PELLET →
      (consume_pellet b x y).1 = 10 ∧
      (consume_pellet b x y).2.tiles y x = TILE_EMPTY ∧
      ∀ j i, ¬(j = y ∧ i = x) →
        (consume_pellet b x y).2.tiles j i = b.tiles j i) ∧
    (b.tiles y x = TILE_POWER →
      (consume_pellet b x y).1 = 50 ∧
      (consume_pellet b x y).2.tiles y x = TILE_EMPTY ∧
      ∀ j i, ¬(j = y ∧ i = x) →
        (consume_pellet b x y).2.tiles j i = b.tiles j i) ∧
    (b.tiles y x ≠ TILE_PELLET → b.tiles y x ≠ TILE_POWER →
      consume_pellet b x y = (0, b)) ∧
    consume_pellet (consume_pellet b x y).2 x y = (0, (consume_pellet b x y).2) := by
  refine ⟨?_, ?_, ?_, ?_⟩
  · intro h
    rw [consume_pellet_of_pellet h]
    exact ⟨rfl, set_empty_tiles_self b x y, fun j i hji => set_empty_tiles_other b x y hji⟩
  · intro h
    rw [consume_pellet_of_power h]
    exact ⟨rfl, set_empty_tiles_self b x y, fun j i hji => set_empty_tiles_other b x y hji⟩
  · intro h1 h2
    exact consume_pellet_of_other h1 h2
  · by_cases h1 : b.tiles y x = TILE_PELLET
    · rw [consume_pellet_of_pellet h1]
      exact consume_pellet_of_other
        (by rw [set_empty_tiles_self]; decide) (by rw [set_empty_tiles_self]; decide)
    · by_cases h2 : b.tiles y x = TILE_POWER
      · rw [consume_pellet_of_power h2]
        exact consume_pellet_of_other
          (by rw [set_empty_tiles_self]; decide) (by rw [set_empty_tiles_self]; decide)
      · rw [consume_pellet_of_other h1 h2]
        exact consume_pellet_of_other h1 h2

theorem consume_pellet_spec_witness :
    ((init_board 5 5).tiles 2 2 = TILE_PELLET ∧
      (consume_pellet (init_board 5 5) 2 2).1 = 10) ∧
    ((set_power (init_board 5 5) 3 2).tiles 2 3 = TILE_POWER ∧
      (consume_pellet (set_power (init_board 5 5) 3 2) 3 2).1 = 50) :=
  ⟨⟨by decide, ((consume_pellet_spec (init_board 5 5) 2 2).1 (by decide)).1⟩,
   ⟨by decide,
    ((consume_pellet_spec (set_power (init_board 5 5) 3 2) 3 2).2.1 (by decide)).1⟩⟩

/-! ## The game layer (`game.py`) -/

/-- Movement axis of the last applied move (`self._last_axis`, `'h'`/`'v'`). -/
inductive Axis where
  | h
  | v
deriving DecidableEq

/-- A ghost: position and current direction (`ghost.py`). -/
structure Ghost where
  pos : Int × Int
  dir : Int × Int
deriving DecidableEq

/-- Manhattan distance, `abs(nx - tx) + abs(ny - ty)`. -/
def mdist (p q : Int × Int) : Nat :=
  (p.1 - q.1).natAbs + (p.2 - q.2).natAbs

/-- The direction enumeration `((1,0), (-1,0), (0,1), (0,-1))` used by the
ghost AI. -/
def dirs4 : List (Int × Int) := [(1, 0), (-1, 0), (0, 1), (0, -1)]

/-- The state of `Game` relevant to the engine.  `rand_k` is the cursor into
the random stream (the module-level `random` generator used by ghost
wandering); rendering fields are omitted. -/
structure GameState where
  board : Board
  player : Int × Int
  is_running : Bool
  state : Nat
  cell_aspect : Rat
  speed_scale : Rat
  ghost_speed_scale : Rat
  super_active : Bool
  super_until : Rat
  freeze_on_win : Bool
  speed_acc : Rat
  ghost_acc : Rat
  last_axis : Option Axis
  desired_dir : Int × Int
  current_dir : Int × Int
  score : Nat
  level_complete : Bool
  caught_by_ghost : Bool
  ghosts : List Ghost
  is_frozen : Bool
  rand_k : Nat

/-- `Game._los_direction`: direction towards `goal` when on the same row or
column with no wall strictly between, else `none`. -/
def los_direction (b : Board) (s g : Int × Int) : Option (Int × Int) :=
  if s.2 = g.2 then
    if s.1 < g.1 then
      if (List.range (g.1 - s.1 - 1).toNat).all
          (fun i => b.tiles s.2 (s.1 + 1 + i) != TILE_WALL) then some (1, 0)
      else none
    else
      if (List.range (s.1 - g.1 - 1).toNat).all
          (fun i => b.tiles s.2 (g.1 + 1 + i) != TILE_WALL) then some (-1, 0)
      else none
  else if s.1 = g.1 then
    if s.2 < g.2 then
      if (List.range (g.2 - s.2 - 1).toNat).all
          (fun i => b.tiles (s.2 + 1 + i) s.1 != TILE_WALL) then some (0, 1)
      else none
    else
      if (List.range (s.2 - g.2 - 1).toNat).all
          (fun i => b.tiles (g.2 + 1 + i) s.1 != TILE_WALL) then some (0, -1)
      else none
  else none

/-- Stable insertion into a key-sorted list (equal keys keep their order,
like Python's stable `list.sort`). -/
def insert_by (key : Int × Int → Nat) (d : Int × Int) :
    List (Int × Int) → List (Int × Int)
  | [] => [d]
  | e :: es => if key e ≤ key d then e :: insert_by key d es else d :: e :: es

/-- Stable sort by key (insertion sort), modelling `dirs.sort(key=...)`. -/
def sort_by (key : Int × Int → Nat) : List (Int × Int) → List (Int × Int)
  | [] => []
  | d :: ds => insert_by key d (sort_by key ds)

/-- `Game._init_ghost_dir`: first legal direction among the four, ordered by
resulting Manhattan distance to the target, else `(0, 0)`. -/
def init_ghost_dir (b : Board) (gpos target : Int × Int) : Int × Int :=
  let ds := sort_by
    (fun d => mdist (apply_move b gpos.1 gpos.2 d.1 d.2) target) dirs4
  (ds.find? (fun d => can_move b gpos.1 gpos.2 d.1 d.2)).getD (0, 0)

/-- `Game._ghost_random_step`: a random legal step (excluding the reverse of
the current direction when an alternative exists), consuming one value of
the random stream when a choice is made. -/
def ghost_random_step (b : Board) (pos cur : Int × Int) (rand : Nat → Nat)
    (k : Nat) : Option (Int × Int) × Nat :=
  let options := dirs4.filter (fun d => can_move b pos.1 pos.2 d.1 d.2)
  if options.isEmpty then (none, k)
  else
    let reverse := (-cur.1, -cur.2)
    let options :=
      if options.length > 1 ∧ reverse ∈ options then
        let o2 := options.filter (fun d => decide (d ≠ reverse))
        if o2.isEmpty then [reverse] else o2
      else options
    (some (options.getD (rand k % options.length) (0, 0)), k + 1)

/-- The frightened-mode selection in `Game._update_ghosts` (lines 422-434):
scan the four directions in order keeping the first strict maximizer of the
Manhattan distance to the target after the move. -/
def flee_best (b : Board) (target p : Int × Int) :
    Option ((Int × Int) × (Int × Int)) :=
  dirs4.foldl
    (fun best d =>
      if can_move b p.1 p.2 d.1 d.2 then
        let n := apply_move b p.1 p.2 d.1 d.2
        if n = p then best
        else
          match best with
          | none => some (d, n)
          | some bn => if mdist bn.2 target < mdist n target then some (d, n) else best
      else best)
    none

/-- The step a line-of-sight chase block performs from position `p` (used
twice per ghost in `Game._update_ghosts`): `none` when no move happens. -/
def los_step (b : Board) (p target : Int × Int) : Option Ghost :=
  match los_direction b p target with
  | some d =>
    if can_move b p.1 p.2 d.1 d.2 then
      let n := apply_move b p.1 p.2 d.1 d.2
      if n ≠ p then some { pos := n, dir := d } else none
    else none
  | none => none

/-- Result of one per-ghost pass of `Game._update_ghosts`. -/
structure GhostStep where
  gh : Ghost
  eaten : Bool
  caught : Bool
  k : Nat

/-- The body of the `for g in self.ghosts` loop in `Game._update_ghosts`,
translated fall-throughs included: in frightened (super) mode the flee move
is computed first, but the duplicated line-of-sight block (lines 498-511)
and — when still unmoved — the duplicated wander block (lines 512-524) still
run afterwards from the ghost's original cell, possibly overriding the flee
move.  `eaten`/`caught` report the collision outcome (lines 525-542);
`caught` corresponds to the early `return`. -/
def ghost_step (b : Board) (target : Int × Int) (super : Bool)
    (rand : Nat → Nat) (k : Nat) (g0 : Ghost) : GhostStep :=
  let gx := g0.pos.1
  let gy := g0.pos.2
  let common : Ghost → Bool → Nat → GhostStep := fun g1 moved1 k1 =>
    let p2 : Ghost × Bool :=
      match los_step b (gx, gy) target with
      | some gl => (gl, true)
      | none => (g1, moved1)
    let p3 : Ghost × Bool × Nat :=
      if p2.2 then (p2.1, true, k1)
      else
        match ghost_random_step b (gx, gy) g0.dir rand k1 with
        | (some d, k2) =>
          let n := apply_move b gx gy d.1 d.2
          if n ≠ (gx, gy) then ({ pos := n, dir := d }, true, k2)
          else (p2.1, false, k2)
        | (none, k2) => (p2.1, false, k2)
    if p3.1.pos = target ∧ super = false then
      { gh := p3.1, eaten := false, caught := true, k := p3.2.2 }
    else
      let gh4 :=
        if p3.2.1 then p3.1
        else { p3.1 with dir := init_ghost_dir b p3.1.pos target }
      { gh := gh4, eaten := decide (p3.1.pos = target) && super,
        caught := false, k := p3.2.2 }
  if super then
    match flee_best b target (gx, gy) with
    | some dn => common { pos := dn.2, dir := dn.1 } true k
    | none => common g0 false k
  else
    let ddx := target.1 - gx
    let ddy := target.2 - gy
    let adj : Option Ghost :=
      if (ddx.natAbs + ddy.natAbs = 1) ∧ can_move b gx gy ddx ddy = true then
        let n := apply_move b gx gy ddx ddy
        if n ≠ (gx, gy) then some { pos := n, dir := (ddx, ddy) } else none
      else none
    match adj with
    | some g1 =>
      if g1.pos = target then { gh := g1, eaten := false, caught := true, k := k }
      else common g1 true k
    | none =>
      match los_step b (gx, gy) target with
      | some gl => common gl true k
      | none =>
        match ghost_random_step b (gx, gy) g0.dir rand k with
        | (some d, k2) =>
          let n := apply_move b gx gy d.1 d.2
          if n ≠ (gx, gy) then common { pos := n, dir := d } true k2
          else common g0 false k2
        | (none, k2) => common g0 false k2

/-- The loop of `Game._update_ghosts` over the ghost list: eaten ghosts are
dropped, and the early `return` on a catch leaves the remaining ghosts
untouched.  Returns the new list, whether a catch happened, and the random
cursor. -/
def update_ghosts_aux (b : Board) (target : Int × Int) (super : Bool)
    (rand : Nat → Nat) : Nat → List Ghost → List Ghost × Bool × Nat
  | k, [] => ([], false, k)
  | k, g :: rest =>
    let r := ghost_step b target super rand k g
    if r.caught then (r.gh :: rest, true, r.k)
    else
      let t := update_ghosts_aux b target super rand r.k rest
      (if r.eaten then t.1 else r.gh :: t.1, t.2.1, t.2.2)

/-- `Game._update_ghosts`: run the per-ghost pass over all ghosts (the loop
body breaks immediately when the game is not running); a catch sets
`caught_by_ghost` and freezes the game. -/
def update_ghosts_run (rand : Nat → Nat) (g : GameState) : GameState :=
  if g.is_running = false then g
  else
    let r := update_ghosts_aux g.board g.player g.super_active rand g.rand_k g.ghosts
    { g with
      ghosts := r.1
      caught_by_ghost := g.caught_by_ghost || r.2.1
      is_frozen := g.is_frozen || r.2.1
      rand_k := r.2.2 }

/-- `Game._check_collisions`: no-op when there are no ghosts or the game is
frozen; in super mode every ghost on the player's cell is eaten (removed, no
score); otherwise a ghost on the player's cell catches the player (sets
`caught_by_ghost`, freezes, and returns `True`). -/
def check_collisions (g : GameState) : GameState × Bool :=
  if g.ghosts.isEmpty ∨ g.is_frozen = true then (g, false)
  else if g.super_active = true then
    ({ g with ghosts := g.ghosts.filter (fun gh => decide (gh.pos ≠ g.player)) }, false)
  else if g.ghosts.any (fun gh => decide (gh.pos = g.player)) then
    ({ g with caught_by_ghost := true, is_frozen := true }, true)
  else (g, false)

/-- Super-mode expiry (`update_game` lines 223-230 and the secondary guard
at line 348): deactivate when the wall clock reached `super_until`. -/
def expire_super (now : Rat) (g : GameState) : GameState :=
  if g.super_active = true ∧ g.super_until ≤ now then
    { g with super_active := false }
  else g

/-- The ghost-cadence block of `Game.update_game` (lines 231-254).  The
second component signals the early `return` taken after a collision or a
freeze. -/
def ghost_phase (rand : Nat → Nat) (g : GameState) : GameState × Bool :=
  if g.ghosts.isEmpty then (g, false)
  else
    let acc := g.ghost_acc + max 0 g.ghost_speed_scale
    if 1 ≤ acc then
      let g1 := update_ghosts_run rand { g with ghost_acc := acc - 1 }
      let cc := check_collisions g1
      if cc.2 then ({ cc.1 with state := cc.1.state + 1 }, true)
      else if cc.1.is_frozen = true then ({ cc.1 with state := cc.1.state + 1 }, true)
      else (cc.1, false)
    else ({ g with ghost_acc := acc }, false)

/-- Direction buffering (`update_game` lines 258-261): a non-zero request
overwrites the buffered desire, a zero vector leaves it unchanged. -/
def buffer_desired (d : Int × Int) (g : GameState) : GameState :=
  if d ≠ (0, 0) then { g with desired_dir := d } else g

/-- The tick's effective movement axis (`update_game` lines 264-272): the
desired axis when the desired direction is legal from the player's cell,
else the committed axis, else none. -/
def intended_axis (g : GameState) : Option Axis :=
  if g.desired_dir ≠ (0, 0) ∧
      can_move g.board g.player.1 g.player.2 g.desired_dir.1 g.desired_dir.2 = true then
    some (if g.desired_dir.1 ≠ 0 then Axis.h else Axis.v)
  else if g.current_dir ≠ (0, 0) then
    some (if g.current_dir.1 ≠ 0 then Axis.h else Axis.v)
  else none

/-- The axis-switch credit added to the speed accumulator (`update_game`
lines 275-278): `cell_aspect - 1` whenever the intended axis is vertical,
differs from `last_axis`, both are set, and the aspect exceeds 1. -/
def turn_credit (g : GameState) (ia : Option Axis) : Rat :=
  if ia.isSome ∧ g.last_axis.isSome ∧ ia ≠ g.last_axis ∧ ia = some Axis.v ∧
      1 < g.cell_aspect then
    g.cell_aspect - 1
  else 0

/-- The stepping threshold (`update_game` line 280): `1.0` unless the
intended axis is vertical, in which case `max(1.0, cell_aspect)`. -/
def step_threshold (ia : Option Axis) (aspect : Rat) : Rat :=
  if ia ≠ some Axis.v then 1 else max 1 aspect

/-- Auto-turn and step (`update_game` lines 287-304).  Returns the updated
state and the `moved` flag. -/
def player_move (g : GameState) : GameState × Bool :=
  let p1 : GameState × Bool :=
    if g.desired_dir ≠ g.current_dir ∧ g.desired_dir ≠ (0, 0) ∧
        can_move g.board g.player.1 g.player.2 g.desired_dir.1 g.desired_dir.2 = true then
      ({ g with current_dir := g.desired_dir }, true)
    else (g, false)
  let g1 := p1.1
  if g1.current_dir ≠ (0, 0) ∧
      can_move g1.board g1.player.1 g1.player.2 g1.current_dir.1 g1.current_dir.2 = true then
    let n := apply_move g1.board g1.player.1 g1.player.2 g1.current_dir.1 g1.current_dir.2
    if n ≠ g1.player then
      let la := some (if g1.current_dir.1 ≠ 0 then Axis.h else Axis.v)
      ({ g1 with player := n, last_axis := la }, true)
    else (g1, p1.2)
  else (g1, p1.2)

/-- Win-condition check (`update_game` lines 359-372): all pellets eaten or
no ghosts left completes the level, then either freezes (skipping the state
increment, as the Python `return` does) or stops the run. -/
def win_check (g : GameState) : GameState :=
  if count_pellets g.board = 0 ∨ g.ghosts.isEmpty = true then
    let g1 := { g with level_complete := true }
    if g1.freeze_on_win = true then { g1 with is_frozen := true }
    else { g1 with is_running := false, state := g1.state + 1 }
  else { g with state := g.state + 1 }

/-- The tail of `Game.update_game` once the speed accumulator passed the
threshold (lines 287-372): move, consume (activating super mode on a power
pellet), post-move collision check with early return, secondary super-expiry
guard, and the win check. -/
def after_threshold (now : Rat) (g : GameState) : GameState :=
  let m := player_move g
  let g1 := m.1
  let r : GameState × Bool :=
    if m.2 then
      let pc := consume_pellet g1.board g1.player.1 g1.player.2
      let g2 := { g1 with board := pc.2 }
      let g3 :=
        if pc.1 ≠ 0 then
          let gs := { g2 with score := g2.score + pc.1 }
          if 50 ≤ pc.1 then { gs with super_active := true, super_until := now + 10 }
          else gs
        else g2
      let cc := check_collisions g3
      if cc.2 then ({ cc.1 with state := cc.1.state + 1 }, true) else (cc.1, false)
    else (g1, false)
  if r.2 then r.1
  else win_check (expire_super now r.1)

/-- The non-frozen part of `Game.update_game` after the super-expiry check:
ghost cadence (with its early returns), quit handling, direction buffering,
axis-aware pacing, and — once the accumulator passes the threshold — the
move/consume/collision/win tail. -/
def tick_main (now : Rat) (rand : Nat → Nat) (dir_vec : Option (Int × Int))
    (g1 : GameState) : GameState :=
  let gp := ghost_phase rand g1
  if gp.2 then gp.1
  else
    match dir_vec with
    | none => { gp.1 with is_running := false }
    | some d =>
      let g2 := buffer_desired d gp.1
      let ia := intended_axis g2
      let acc := g2.speed_acc + max 0 g2.speed_scale + turn_credit g2 ia
      if acc < step_threshold ia g2.cell_aspect then
        { g2 with speed_acc := acc, state := g2.state + 1 }
      else
        after_threshold now { g2 with speed_acc := acc - step_threshold ia g2.cell_aspect }

/-- `Game.update_game`, one tick.  `dir_vec` is the input collaborator's
result for this tick (`none` is the quit sentinel), `now` the wall clock and
`rand` the random stream.  A frozen game only honors the quit sentinel. -/
def update_game (now : Rat) (rand : Nat → Nat) (dir_vec : Option (Int × Int))
    (g : GameState) : GameState :=
  if g.is_frozen = true then
    match dir_vec with
    | none => { g with is_running := false }
    | some _ => g
  else tick_main now rand dir_vec (expire_super now g)

/-- `Game.__init__` with the constructor defaults (`ghosts_count=0`,
`speed_scale=1.0`, `cell_aspect=1.0`, `maze=False`) followed by
`Game.start_game` (player at the board center, accumulators reset,
`is_running` set; with zero ghosts `_spawn_ghosts` leaves the list empty and
no power pellets are placed since no maze was generated). -/
def initial_game (w h : Int) (freeze : Bool) : GameState :=
  let b := init_board w h
  { board := b
    player := center_position b
    is_running := true
    state := 0
    cell_aspect := 1
    speed_scale := 1
    ghost_speed_scale := 1 * 0.512
    super_active := false
    super_until := 0
    freeze_on_win := freeze
    speed_acc := 0
    ghost_acc := 0
    last_axis := none
    desired_dir := (0, 0)
    current_dir := (0, 0)
    score := 0
    level_complete := false
    caught_by_ghost := false
    ghosts := []
    is_frozen := false
    rand_k := 0 }

lemma mem_inner_list {w h x y : Int} :
    (x, y) ∈ inner_list w h ↔ 1 ≤ x ∧ x ≤ w - 2 ∧ 1 ≤ y ∧ y ≤ h - 2 := by
  simp only [inner_list, List.mem_flatMap, List.mem_map, List.mem_range, Prod.mk.injEq]
  constructor
  · rintro ⟨j, hj, i, hi, hx, hy⟩
    omega
  · rintro ⟨h1, h2, h3, h4⟩
    refine ⟨(y - 1).toNat, ?_, (x - 1).toNat, ?_, ?_, ?_⟩ <;> omega

/-- The freshly initialized board always holds at least one pellet. -/
lemma count_pellets_init_pos (w h : Int) : 0 < count_pellets (init_board w h) := by
  rw [count_pellets, List.countP_pos_iff]
  refine ⟨((1 : Int), (1 : Int)), ?_, ?_⟩
  · rw [mem_inner_list]
    simp only [init_board]
    omega
  · simp only [init_board, decide_eq_true_eq]
    rw [if_pos (by omega)]
    left; rfl

/-- C10.  With the constructor default `ghosts_count = 0` the ghost list is
empty from the start, so the very first (non-frozen, non-quit) tick fires
the win condition: `level_complete` becomes true and the game stops
(`is_running = false`) or freezes per `freeze_on_win`, even though the board
still holds all of its pellets (the board is unchanged and the score 0). -/
theorem zero_ghosts_win_first_tick (w h : Int) (now : Rat) (rand : Nat → Nat) :
    (initial_game w h false).ghosts = [] ∧
    (initial_game w h true).ghosts = [] ∧
    0 < count_pellets (initial_game w h false).board ∧
    (update_game now rand (some (0, 0)) (initial_game w h false)).level_complete = true ∧
    (update_game now rand (some (0, 0)) (initial_game w h false)).is_running = false ∧
    (update_game now rand (some (0, 0)) (initial_game w h false)).board =
      (initial_game w h false).board ∧
    (update_game now rand (some (0, 0)) (initial_game w h false)).score = 0 ∧
    (update_game now rand (some (0, 0)) (initial_game w h true)).level_complete = true ∧
    (update_game now rand (some (0, 0)) (initial_game w h true)).is_frozen = true ∧
    (update_game now rand (some (0, 0)) (initial_game w h true)).is_running = true := by
  refine ⟨rfl, rfl, count_pellets_init_pos w h, ?_⟩
  simp [update_game, tick_main, initial_game, expire_super, ghost_phase, buffer_desired,
    intended_axis, turn_credit, step_threshold, after_threshold, player_move,
    win_check, check_collisions]

/-! ## Concrete scenarios -/

/-- A default 7×3 board: a single open corridor row `y = 1`. -/
def board7x3 : Board := init_board 7 3

/-- C5.  Counter-evidence for the frightened-mode policy: on the open
corridor board, with the player at `(5,1)` and a frightened ghost at
`(2,1)`, the flee selection picks the left move to `(1,1)` (Manhattan
distance 4), but the ghost pass ends with the ghost at `(3,1)` — the
duplicated line-of-sight chase block runs after the flee move and overrides
it with a step towards the player, leaving the ghost closer (distance 2)
than the maximizing move allows. -/
theorem frightened_ghost_chases_cex :
    (ghost_step board7x3 (5, 1) true (fun _ => 0) 0
        { pos := (2, 1), dir := (1, 0) }).gh.pos = (3, 1) ∧
    flee_best board7x3 (5, 1) (2, 1) = some ((-1, 0), (1, 1)) ∧
    mdist (3, 1) (5, 1) < mdist (1, 1) (5, 1) := by
  decide

/-- The board of the repository's `test_pellet_consumption_and_level_end`:
a 5×5 board with every interior cell cleared and a single pellet at
`(3, 2)`, one step right of the center. -/
def board_one_pellet : Board :=
  set_pellet ((inner_list 5 5).foldl (fun b c => set_empty b c.1 c.2)
    (init_board 5 5)) 3 2

/-- The game state on `board_one_pellet`: player at the center `(2,2)`, one
ghost in the corner `(1,1)` (far from the action), default speeds. -/
def game_c8 (freeze : Bool) : GameState :=
  { board := board_one_pellet
    player := center_position board_one_pellet
    is_running := true
    state := 0
    cell_aspect := 1
    speed_scale := 1
    ghost_speed_scale := 1 * 0.512
    super_active := false
    super_until := 0
    freeze_on_win := freeze
    speed_acc := 0
    ghost_acc := 0
    last_axis := none
    desired_dir := (0, 0)
    current_dir := (0, 0)
    score := 0
    level_complete := false
    caught_by_ghost := false
    ghosts := [{ pos := (1, 1), dir := init_ghost_dir board_one_pellet (1, 1) (2, 2) }]
    is_frozen := false
    rand_k := 0 }

/-- C8 counterexample.  On a board reduced to one pellet, the tick in which
the player steps onto it already fires the win condition: after that single
tick the score is 10 **and** `level_complete` is already true and the run
has already stopped — not on the following tick as claimed. -/
theorem last_pellet_win_next_tick_cex :
    (update_game 0 (fun _ => 0) (some (1, 0)) (game_c8 false)).score = 10 ∧
    (update_game 0 (fun _ => 0) (some (1, 0)) (game_c8 false)).level_complete = true ∧
    (update_game 0 (fun _ => 0) (some (1, 0)) (game_c8 false)).is_running = false := by
  norm_num +decide [update_game, tick_main, expire_super, ghost_phase, update_ghosts_run,
    check_collisions, buffer_desired, intended_axis, turn_credit, step_threshold,
    after_threshold, player_move, win_check, consume_pellet, count_pellets,
    inner_list, game_c8, board_one_pellet, init_board, center_position,
    set_pellet, set_empty, set2, can_move, apply_move, is_walkable,
    TILE_EMPTY, TILE_WALL, TILE_PELLET, TILE_POWER, max_def]

/-- C8 (amended).  The tick in which the player steps onto the last pellet
adds exactly 10 to the score and fires the win condition in that same tick:
with `freeze_on_win = false` the run stops, with `freeze_on_win = true` the
game freezes while `is_running` stays true. -/
theorem last_pellet_win_same_tick :
    count_pellets (game_c8 false).board = 1 ∧
    (game_c8 false).board.tiles 2 3 = TILE_PELLET ∧
    (update_game 0 (fun _ => 0) (some (1, 0)) (game_c8 false)).player = (3, 2) ∧
    (update_game 0 (fun _ => 0) (some (1, 0)) (game_c8 false)).score = 10 ∧
    (update_game 0 (fun _ => 0) (some (1, 0)) (game_c8 false)).level_complete = true ∧
    (update_game 0 (fun _ => 0) (some (1, 0)) (game_c8 false)).is_running = false ∧
    (update_game 0 (fun _ => 0) (some (1, 0)) (game_c8 true)).score = 10 ∧
    (update_game 0 (fun _ => 0) (some (1, 0)) (game_c8 true)).level_complete = true ∧
    (update_game 0 (fun _ => 0) (some (1, 0)) (game_c8 true)).is_frozen = true ∧
    (update_game 0 (fun _ => 0) (some (1, 0)) (game_c8 true)).is_running = true := by
  norm_num +decide [update_game, tick_main, expire_super, ghost_phase, update_ghosts_run,
    check_collisions, buffer_desired, intended_axis, turn_credit, step_threshold,
    after_threshold, player_move, win_check, consume_pellet, count_pellets,
    inner_list, game_c8, board_one_pellet, init_board, center_position,
    set_pellet, set_empty, set2, can_move, apply_move, is_walkable,
    TILE_EMPTY, TILE_WALL, TILE_PELLET, TILE_POWER, max_def]

/-- A 7×7 board where the player, having walked right along row 3, sits at
`(3,3)` with the two traversed cells emptied. -/
def board_c9 : Board := set_empty (set_empty (init_board 7 7) 2 3) 3 3

/-- Mid-game state for the pacing scenario: `cell_aspect = 2`,
`speed_scale = 2/5`, player at `(3,3)` moving right (`last_axis = h`),
accumulator empty, one ghost far away in the corner. -/
def game_c9 : GameState :=
  { board := board_c9
    player := (3, 3)
    is_running := true
    state := 0
    cell_aspect := 2
    speed_scale := 2 / 5
    ghost_speed_scale := 2 / 5 * 0.512
    super_active := false
    super_until := 0
    freeze_on_win := false
    speed_acc := 0
    ghost_acc := 0
    last_axis := some Axis.h
    desired_dir := (0, 0)
    current_dir := (1, 0)
    score := 0
    level_complete := false
    caught_by_ghost := false
    ghosts := [{ pos := (1, 1), dir := init_ghost_dir board_c9 (1, 1) (3, 3) }]
    is_frozen := false
    rand_k := 0 }

/-- C9.  Evaluation of two consecutive ticks after an h→v axis switch with
`cell_aspect = 2` and `speed_scale = 2/5`: requesting "down" leaves the
accumulator at `7/5 = 2/5 + (2 − 1)` after tick 1 (credit granted once, no
step since `7/5 < 2`), and tick 2 grants the credit **again** — the step
lands with leftover `4/5 = 2·(2/5) + 2·(2−1) − 2`, whereas a one-time
credit would have left `2/5 + 2/5 + (2−1) = 9/5 < 2` and no step.  The
vertical threshold used is `max(1, cell_aspect) = 2` and the horizontal one
is 1. -/
theorem vertical_credit_each_tick_cex :
    (update_game 0 (fun _ => 0) (some (0, 1)) game_c9).player = (3, 3) ∧
    (update_game 0 (fun _ => 0) (some (0, 1)) game_c9).speed_acc = 7 / 5 ∧
    (update_game 0 (fun _ => 0) (some (0, 0))
      (update_game 0 (fun _ => 0) (some (0, 1)) game_c9)).player = (3, 4) ∧
    (update_game 0 (fun _ => 0) (some (0, 0))
      (update_game 0 (fun _ => 0) (some (0, 1)) game_c9)).speed_acc = 4 / 5 ∧
    step_threshold (some Axis.v) 2 = 2 ∧
    step_threshold (some Axis.h) 2 = 1 ∧
    step_threshold none 2 = 1 := by
  norm_num +decide [update_game, tick_main, expire_super, ghost_phase, update_ghosts_run,
    check_collisions, buffer_desired, intended_axis, turn_credit, step_threshold,
    after_threshold, player_move, win_check, consume_pellet, count_pellets,
    inner_list, game_c9, board_c9, init_board, center_position,
    set_pellet, set_empty, set2, can_move, apply_move, is_walkable,
    TILE_EMPTY, TILE_WALL, TILE_PELLET, TILE_POWER, max_def]

/-! ## Collision resolution (C6) -/

/-- C6.  Collision resolution: when the game is live and a ghost shares the
player's cell, frightened (super) mode removes exactly the ghosts on that
cell from the list with the score unchanged, while chase mode marks the
player caught (`caught_by_ghost`) and freezes the game, again without
touching the score; and a frozen game ignores every tick except the quit
sentinel, which alone stops the run (`is_running = false`). -/
theorem collision_resolution (g : GameState) (now : Rat) (rand : Nat → Nat)
    (d : Int × Int) :
    (g.is_frozen = false → g.super_active = true →
      (check_collisions g).1.ghosts =
        g.ghosts.filter (fun gh => decide (gh.pos ≠ g.player)) ∧
      (check_collisions g).1.score = g.score ∧
      ∀ gh ∈ g.ghosts, gh.pos = g.player → gh ∉ (check_collisions g).1.ghosts) ∧
    (g.is_frozen = false → g.super_active = false →
      (∃ gh ∈ g.ghosts, gh.pos = g.player) →
      (check_collisions g).1.caught_by_ghost = true ∧
      (check_collisions g).1.is_frozen = true ∧
      (check_collisions g).1.score = g.score ∧
      (check_collisions g).2 = true) ∧
    (g.is_frozen = true →
      update_game now rand (some d) g = g ∧
      (update_game now rand none g).is_running = false) := by
  refine ⟨?_, ?_, ?_⟩
  · intro hfz hsp
    by_cases hemp : g.ghosts.isEmpty
    · have hnil : g.ghosts = [] := List.isEmpty_iff.mp hemp
      have hcc : check_collisions g = (g, false) := by
        simp [check_collisions, hemp]
      rw [hcc]
      simp [hnil]
    · have hcc : check_collisions g =
          ({ g with ghosts := g.ghosts.filter (fun gh => decide (gh.pos ≠ g.player)) },
            false) := by
        simp [check_collisions, hemp, hfz, hsp]
      rw [hcc]
      refine ⟨rfl, rfl, ?_⟩
      intro gh _ hpos hmem
      rw [List.mem_filter] at hmem
      simp only [decide_eq_true_eq] at hmem
      exact hmem.2 hpos
  · intro hfz hsp hex
    have hemp : g.ghosts.isEmpty = false := by
      obtain ⟨gh, hmem, _⟩ := hex
      cases hl : g.ghosts with
      | nil => rw [hl] at hmem; cases hmem
      | cons a l => simp [hl]
    have hany : g.ghosts.any (fun gh => decide (gh.pos = g.player)) = true := by
      rw [List.any_eq_true]
      obtain ⟨gh, hmem, hpos⟩ := hex
      exact ⟨gh, hmem, by simp [hpos]⟩
    have hcc : check_collisions g =
        ({ g with caught_by_ghost := true, is_frozen := true }, true) := by
      simp [check_collisions, hemp, hfz, hsp, hany]
    rw [hcc]
    exact ⟨rfl, rfl, rfl, rfl⟩
  · intro hfz
    constructor
    · simp [update_game, hfz]
    · simp [update_game, hfz]

/-- A live frightened state with two ghosts, one of them on the player. -/
def game_c6a : GameState :=
  { board := init_board 5 5
    player := (2, 2)
    is_running := true
    state := 7
    cell_aspect := 1
    speed_scale := 1
    ghost_speed_scale := 1 * 0.512
    super_active := true
    super_until := 20
    freeze_on_win := false
    speed_acc := 0
    ghost_acc := 0
    last_axis := some Axis.h
    desired_dir := (1, 0)
    current_dir := (1, 0)
    score := 120
    level_complete := false
    caught_by_ghost := false
    ghosts := [{ pos := (2, 2), dir := (0, 1) }, { pos := (1, 1), dir := (1, 0) }]
    is_frozen := false
    rand_k := 3 }

/-- The same situation in chase mode. -/
def game_c6b : GameState := { game_c6a with super_active := false }

/-- A frozen (game-over) state. -/
def game_c6f : GameState :=
  { game_c6b with is_frozen := true, caught_by_ghost := true }

theorem collision_resolution_witness :
    ((check_collisions game_c6a).1.ghosts = [{ pos := (1, 1), dir := (1, 0) }] ∧
      (check_collisions game_c6a).1.score = game_c6a.score) ∧
    ((check_collisions game_c6b).1.caught_by_ghost = true ∧
      (check_collisions game_c6b).1.is_frozen = true ∧
      (check_collisions game_c6b).1.score = game_c6b.score) ∧
    (update_game 0 (fun _ => 0) (some (1, 0)) game_c6f = game_c6f ∧
      (update_game 0 (fun _ => 0) none game_c6f).is_running = false) := by
  have h1 := (collision_resolution game_c6a 0 (fun _ => 0) (1, 0)).1 rfl rfl
  have h2 := (collision_resolution game_c6b 0 (fun _ => 0) (1, 0)).2.1 rfl rfl
    ⟨{ pos := (2, 2), dir := (0, 1) }, by decide, rfl⟩
  have h3 := (collision_resolution game_c6f 0 (fun _ => 0) (1, 0)).2.2 rfl
  refine ⟨⟨?_, h1.2.1⟩, ⟨h2.1, h2.2.1, h2.2.2.1⟩, h3⟩
  rw [h1.1]
  decide

/-! ## Power pellets and frightened mode (C7) -/

lemma ghost_phase_of_no_ghosts (rand : Nat → Nat) {g : GameState}
    (h : g.ghosts = []) : ghost_phase rand g = (g, false) := by
  simp [ghost_phase, h]

lemma win_check_fields (g : GameState) :
    (win_check g).score = g.score ∧ (win_check g).super_active = g.super_active ∧
      (win_check g).super_until = g.super_until := by
  unfold win_check
  split
  · dsimp only
    split <;> exact ⟨rfl, rfl, rfl⟩
  · exact ⟨rfl, rfl, rfl⟩

lemma win_check_score (g : GameState) : (win_check g).score = g.score :=
  (win_check_fields g).1

lemma win_check_super_active (g : GameState) :
    (win_check g).super_active = g.super_active :=
  (win_check_fields g).2.1

lemma win_check_super_until (g : GameState) :
    (win_check g).super_until = g.super_until :=
  (win_check_fields g).2.2

/-- The heart of C7, stated on the non-frozen tick body `tick_main`: under a
live tick with no ghosts, whose committed step lands on a `POWER_PELLET`
cell — with an aspect ratio at most 1 (so the threshold is 1 with no turn
credit) and enough accumulated speed for the step — the score increases by
exactly 50, super (frightened) mode switches on, and its deadline is set to
`now + 10` regardless of the previous `super_active`/`super_until` values. -/
theorem tick_power_pellet (g : GameState) (now : Rat) (rand : Nat → Nat)
    (dx dy qx qy : Int)
    (hgh : g.ghosts = [])
    (hd : (dx, dy) ≠ (0, 0))
    (hcm : can_move g.board g.player.1 g.player.2 dx dy = true)
    (hap : apply_move g.board g.player.1 g.player.2 dx dy = (qx, qy))
    (hne : (qx, qy) ≠ g.player)
    (htile : g.board.tiles qy qx = TILE_POWER)
    (hasp : g.cell_aspect ≤ 1)
    (hacc : 1 ≤ g.speed_acc + max 0 g.speed_scale) :
    (tick_main now rand (some (dx, dy)) g).score = g.score + 50 ∧
    (tick_main now rand (some (dx, dy)) g).super_active = true ∧
    (tick_main now rand (some (dx, dy)) g).super_until = now + 10 := by
  have hnasp : ¬(1 < g.cell_aspect) := not_lt.mpr hasp
  have hmax : max 1 g.cell_aspect = 1 := max_eq_left hasp
  have hgp := ghost_phase_of_no_ghosts rand hgh
  have h50 : (50 : Nat) ≠ 0 := by decide
  by_cases hcd : (dx, dy) = g.current_dir
  · simp only [tick_main, hgp, buffer_desired, intended_axis, turn_credit,
      step_threshold, after_threshold, player_move, expire_super, check_collisions,
      consume_pellet_of_power htile, hd, hcm, hap, hne, htile, hgh, hnasp, hmax,
      ← hcd, h50, ne_eq, not_false_iff, not_true, and_true, true_and,
      and_false, false_and, if_true, if_false, ite_self, Option.isSome_some,
      List.isEmpty_nil, Bool.false_eq_true, add_zero]
    rw [if_neg (not_lt.mpr hacc)]
    norm_num [win_check_score, win_check_super_active, win_check_super_until]
  · simp only [tick_main, hgp, buffer_desired, intended_axis, turn_credit,
      step_threshold, after_threshold, player_move, expire_super, check_collisions,
      consume_pellet_of_power htile, hd, hcm, hap, hne, htile, hgh, hnasp, hmax,
      hcd, h50, ne_eq, not_false_iff, not_true, and_true, true_and,
      and_false, false_and, if_true, if_false, ite_self, Option.isSome_some,
      List.isEmpty_nil, Bool.false_eq_true, add_zero]
    rw [if_neg (not_lt.mpr hacc)]
    norm_num [win_check_score, win_check_super_active, win_check_super_until]

/-- C7.  A power-pellet consumption during a tick (a live tick, here without
ghosts, whose committed step lands on a `POWER_PELLET` cell, with aspect
ratio at most 1 and enough accumulated speed for the step) adds exactly 50
to the score, switches frightened (super) mode on, and sets the frightened
deadline to exactly `now + 10`, whatever `super_active`/`super_until` held
before the tick — a re-trigger restarts the full duration instead of
extending or stacking it. -/
theorem power_pellet_frightened (g : GameState) (now : Rat) (rand : Nat → Nat)
    (dx dy qx qy : Int)
    (hfz : g.is_frozen = false)
    (hgh : g.ghosts = [])
    (hd : (dx, dy) ≠ (0, 0))
    (hcm : can_move g.board g.player.1 g.player.2 dx dy = true)
    (hap : apply_move g.board g.player.1 g.player.2 dx dy = (qx, qy))
    (hne : (qx, qy) ≠ g.player)
    (htile : g.board.tiles qy qx = TILE_POWER)
    (hasp : g.cell_aspect ≤ 1)
    (hacc : 1 ≤ g.speed_acc + max 0 g.speed_scale) :
    (update_game now rand (some (dx, dy)) g).score = g.score + 50 ∧
    (update_game now rand (some (dx, dy)) g).super_active = true ∧
    (update_game now rand (some (dx, dy)) g).super_until = now + 10 := by
  have hu : update_game now rand (some (dx, dy)) g =
      tick_main now rand (some (dx, dy)) (expire_super now g) := by
    simp [update_game, hfz]
  rw [hu]
  unfold expire_super
  split
  · exact tick_power_pellet _ now rand dx dy qx qy hgh hd hcm hap hne htile hasp hacc
  · exact tick_power_pellet _ now rand dx dy qx qy hgh hd hcm hap hne htile hasp hacc

/-- A state with an already-running frightened timer (`super_until = 3`) and
a power pellet one step to the right of the player. -/
def game_c7 : GameState :=
  { board := set_power (init_board 5 5) 3 2
    player := (2, 2)
    is_running := true
    state := 4
    cell_aspect := 1
    speed_scale := 1
    ghost_speed_scale := 1 * 0.512
    super_active := true
    super_until := 3
    freeze_on_win := false
    speed_acc := 0
    ghost_acc := 0
    last_axis := some Axis.h
    desired_dir := (1, 0)
    current_dir := (1, 0)
    score := 100
    level_complete := false
    caught_by_ghost := false
    ghosts := []
    is_frozen := false
    rand_k := 0 }

theorem power_pellet_frightened_witness :
    (update_game 5 (fun _ => 0) (some (1, 0)) game_c7).score = game_c7.score + 50 ∧
    (update_game 5 (fun _ => 0) (some (1, 0)) game_c7).super_active = true ∧
    (update_game 5 (fun _ => 0) (some (1, 0)) game_c7).super_until = 5 + 10 :=
  power_pellet_frightened game_c7 5 (fun _ => 0) 1 0 3 2 rfl rfl (by decide)
    (by decide) (by decide) (by decide) (by decide) (by norm_num [game_c7])
    (by norm_num [game_c7, max_def])

/-! ## Maze generation (`Board.generate_maze`)

The generator's randomness is abstracted into two oracles: `rs`, the stream
of `rng.choice` indices for the depth-first carving (the `k`-th call picks
element `rs k % len` of the neighbor list), and `pick`, which tells for each
braiding candidate whether its separating wall is opened
(`rng.shuffle` + the per-candidate `rng.random() < 0.30` coin flips jointly
select an arbitrary subset of the candidate list, and the openings are
order-independent writes, so a subset predicate models them faithfully).
Python's `random.Random(seed)` is a pure function of the seed, so a seed
determines the two oracles. -/

/-- `Board._odd_within`. -/
def odd_within (v lo hi : Int) : Int :=
  let v1 := max lo (min hi v)
  if v1 % 2 = 0 then
    if v1 + 1 ≤ hi then v1 + 1
    else if lo ≤ v1 - 1 then v1 - 1
    else v1
  else v1

/-- The wall-fill pass: every interior cell becomes `TILE_WALL`. -/
def wall_fill (w h : Int) (t : Tiles) : Tiles :=
  fun y x => if 1 ≤ y ∧ y ≤ h - 2 ∧ 1 ≤ x ∧ x ≤ w - 2 then TILE_WALL else t y x

/-- The DFS state: tile grid, cell stack (head = Python's `stack[-1]`), and
the cursor into the choice stream. -/
structure DfsSt where
  tiles : Tiles
  stack : List (Int × Int)
  k : Nat

/-- The two-cells-away neighbor enumeration of the DFS, directions in the
Python order `(2,0), (-2,0), (0,2), (0,-2)`, keeping targets inside the
interior that are still walls. -/
def neighbors2 (w h : Int) (t : Tiles) (x y : Int) :
    List ((Int × Int) × (Int × Int)) :=
  ([((2 : Int), (0 : Int)), (-2, 0), (0, 2), (0, -2)]).filterMap (fun d =>
    let nx := x + d.1
    let ny := y + d.2
    if 1 ≤ nx ∧ nx ≤ w - 2 ∧ 1 ≤ ny ∧ ny ≤ h - 2 ∧ t ny nx = TILE_WALL then
      some ((nx, ny), d)
    else none)

/-- One iteration of the DFS `while stack:` loop: carve through a randomly
chosen neighbor (consuming one choice) and push it, or pop. -/
def dfs_step (w h : Int) (rs : Nat → Nat) (st : DfsSt) : DfsSt :=
  match st.stack with
  | [] => st
  | (x, y) :: rest =>
    let ns := neighbors2 w h st.tiles x y
    if ns.isEmpty then { st with stack := rest }
    else
      let c := ns.getD (rs st.k % ns.length) ((0, 0), (0, 0))
      let wx := x + c.2.1 / 2
      let wy := y + c.2.2 / 2
      { tiles := set2 (set2 st.tiles wx wy TILE_PELLET) c.1.1 c.1.2 TILE_PELLET
        stack := c.1 :: st.stack
        k := st.k + 1 }

/-- Fuel-driven run of the DFS loop.  The loop terminates within
`2·w·h + 2` iterations: every push carves a fresh `WALL` target (at most
`w·h` of them, plus the initial cell) and every other iteration pops, so the
fuel used below is always sufficient and the run ends with an empty stack
exactly as the Python loop does. -/
def dfs_run (w h : Int) (rs : Nat → Nat) : Nat → DfsSt → DfsSt
  | 0, st => st
  | fuel + 1, st =>
    if st.stack.isEmpty then st
    else dfs_run w h rs fuel (dfs_step w h rs st)

/-- The carved grid after the DFS, starting from `s`. -/
def dfs_tiles (w h : Int) (rs : Nat → Nat) (t0 : Tiles) (s : Int × Int) :
    Tiles :=
  (dfs_run w h rs (2 * (w.toNat * h.toNat) + 2)
    { tiles := set2 t0 s.1 s.2 TILE_PELLET, stack := [s], k := 0 }).tiles

/-- The braiding candidate test: a separating wall with pellets on both
sides, horizontally (checked first in Python, with `continue`) or
vertically. -/
def braid_ok (w h : Int) (t : Tiles) (c : Int × Int) : Bool :=
  t c.2 c.1 = TILE_WALL ∧
    ((1 ≤ c.1 - 1 ∧ c.1 + 1 ≤ w - 2 ∧ t c.2 (c.1 - 1) = TILE_PELLET ∧
        t c.2 (c.1 + 1) = TILE_PELLET) ∨
      (1 ≤ c.2 - 1 ∧ c.2 + 1 ≤ h - 2 ∧ t (c.2 - 1) c.1 = TILE_PELLET ∧
        t (c.2 + 1) c.1 = TILE_PELLET))

/-- Fold writing `TILE_PELLET` at each listed cell whose guard holds (the
shape shared by the braiding, tunnel-carving and de-doubling loops). -/
def set_cells (p : Tiles → Int × Int → Bool) (cs : List (Int × Int))
    (t : Tiles) : Tiles :=
  cs.foldl (fun t c => if p t c then set2 t c.1 c.2 TILE_PELLET else t) t

/-- The braiding pass: open the picked subset of the candidate walls. -/
def braid (w h : Int) (pick : Int × Int → Bool) (t : Tiles) : Tiles :=
  set_cells (fun _ c => pick c) ((inner_list w h).filter (braid_ok w h t)) t

/-- Cells `(1+i, cy)` for `x in range(1, width - 2 + 1)`. -/
def row_cells (w cy : Int) : List (Int × Int) :=
  (List.range (w - 2).toNat).map (fun (i : Nat) => (1 + (i : Int), cy))

/-- Cells `(cx, 1+j)` for `y in range(1, height - 2 + 1)`. -/
def col_cells (h cx : Int) : List (Int × Int) :=
  (List.range (h - 2).toNat).map (fun (j : Nat) => (cx, 1 + (j : Int)))

/-- The tunnel pass: carve the full center row, then the full center
column. -/
def carve_cross (w h : Int) (c : Int × Int) (t : Tiles) : Tiles :=
  set_cells (fun _ _ => true) (col_cells h c.1)
    (set_cells (fun _ _ => true) (row_cells w c.2) t)

/-- Guard of the de-doubling loops: only cells currently `WALL` are opened. -/
def wall_p : Tiles → Int × Int → Bool := fun t c => t c.2 c.1 == TILE_WALL

/-- The border de-doubling pass: clear walls on the rightmost interior
column, then on the bottom interior row. -/
def de_double (w h : Int) (t : Tiles) : Tiles :=
  set_cells wall_p (row_cells w (h - 2)) (set_cells wall_p (col_cells h (w - 2)) t)

/-- `Board.generate_maze`, assembled from the passes above in source order:
wall fill, DFS carving from the odd-snapped center, braiding, tunnel
carving (registering the center row/column as tunnels), border
de-doubling.  Returns the board unchanged when the interior is
degenerate. -/
def generate_maze (rs : Nat → Nat) (pick : Int × Int → Bool) (b : Board) :
    Board :=
  if b.width - 2 < 1 ∨ b.height - 2 < 1 then b
  else
    let c := center_position b
    let s := (odd_within c.1 1 (b.width - 2), odd_within c.2 1 (b.height - 2))
    { b with
      tiles := de_double b.width b.height (carve_cross b.width b.height c
        (braid b.width b.height pick
          (dfs_tiles b.width b.height rs (wall_fill b.width b.height b.tiles) s)))
      tunnel_rows := fun r => r == c.2 || b.tunnel_rows r
      tunnel_cols := fun q => q == c.1 || b.tunnel_cols q }

/-- `Board.__init__` with `generate_maze=True` and a given seed (through its
oracles): generate a maze on a fresh board. -/
def gen_board (w h : Int) (rs : Nat → Nat) (pick : Int × Int → Bool) : Board :=
  generate_maze rs pick (init_board w h)

/-- The generation start cell (the odd-snapped center). -/
def gen_start (w h : Int) : Int × Int :=
  let b := init_board w h
  (odd_within (center_position b).1 1 (b.width - 2),
    odd_within (center_position b).2 1 (b.height - 2))

/-- C4.  Maze generation is deterministic in the seed: two boards of equal
width and height generated with the same seed (hence the same choice
oracles, `random.Random(seed)` being a pure function of the seed) have
cell-for-cell identical tile grids and identical tunnel row/column sets. -/
theorem maze_deterministic (w1 h1 w2 h2 : Int) (rs1 rs2 : Nat → Nat)
    (pick1 pick2 : Int × Int → Bool)
    (hw : w1 = w2) (hh : h1 = h2) (hrs : rs1 = rs2) (hpick : pick1 = pick2) :
    (∀ y x, (gen_board w1 h1 rs1 pick1).tiles y x =
      (gen_board w2 h2 rs2 pick2).tiles y x) ∧
    (∀ r, (gen_board w1 h1 rs1 pick1).tunnel_rows r =
      (gen_board w2 h2 rs2 pick2).tunnel_rows r) ∧
    (∀ q, (gen_board w1 h1 rs1 pick1).tunnel_cols q =
      (gen_board w2 h2 rs2 pick2).tunnel_cols q) := by
  subst hw; subst hh; subst hrs; subst hpick
  exact ⟨fun _ _ => rfl, fun _ => rfl, fun _ => rfl⟩

theorem maze_deterministic_witness :
    (gen_board 9 7 (fun _ => 0) (fun _ => false)).tiles 3 4 =
      (gen_board 9 7 (fun _ => 0) (fun _ => false)).tiles 3 4 ∧
    (gen_board 9 7 (fun _ => 0) (fun _ => false)).tunnel_rows 3 =
      (gen_board 9 7 (fun _ => 0) (fun _ => false)).tunnel_rows 3 ∧
    (gen_board 9 7 (fun _ => 0) (fun _ => false)).tunnel_cols 4 =
      (gen_board 9 7 (fun _ => 0) (fun _ => false)).tunnel_cols 4 :=
  ⟨(maze_deterministic 9 7 9 7 _ _ _ _ rfl rfl rfl rfl).1 3 4,
   (maze_deterministic 9 7 9 7 _ _ _ _ rfl rfl rfl rfl).2.1 3,
   (maze_deterministic 9 7 9 7 _ _ _ _ rfl rfl rfl rfl).2.2 4⟩

/-! ## Reachability infrastructure for the connectivity claim -/

/-- Interior bounds: exactly the cells `is_walkable` does not reject. -/
def inb (w h : Int) (p : Int × Int) : Prop :=
  1 ≤ p.1 ∧ p.1 ≤ w - 2 ∧ 1 ≤ p.2 ∧ p.2 ≤ h - 2

/-- Walkability of a raw tile grid (mirrors `is_walkable`). -/
def walk_t (w h : Int) (t : Tiles) (p : Int × Int) : Prop :=
  inb w h p ∧ t p.2 p.1 ≠ TILE_WALL

/-- One orthogonal step between two walkable cells of a grid. -/
def adj_t (w h : Int) (t : Tiles) (p q : Int × Int) : Prop :=
  walk_t w h t p ∧ walk_t w h t q ∧
    (p.1 - q.1).natAbs + (p.2 - q.2).natAbs = 1

/-- Reachability by single-cell walkable steps on a raw grid. -/
def reach_t (w h : Int) (t : Tiles) (s p : Int × Int) : Prop :=
  Relation.ReflTransGen (adj_t w h t) s p

/-- The claim-level step on a board: some direction with `can_move` whose
`apply_move` lands on `q` (tunnel wraps included). -/
def step_rel (b : Board) (p q : Int × Int) : Prop :=
  ∃ d ∈ dirs4, can_move b p.1 p.2 d.1 d.2 = true ∧
    apply_move b p.1 p.2 d.1 d.2 = q

/-- Reachability by legal game moves on a board. -/
def reachable (b : Board) (s p : Int × Int) : Prop :=
  Relation.ReflTransGen (step_rel b) s p

lemma is_walkable_of_walk {b : Board} {p : Int × Int}
    (h : walk_t b.width b.height b.tiles p) : is_walkable b p.1 p.2 = true := by
  obtain ⟨⟨h1, h2, h3, h4⟩, hw⟩ := h
  unfold is_walkable
  rw [if_neg (by omega)]
  simpa using hw

lemma adj_t_step {b : Board} {p q : Int × Int}
    (h : adj_t b.width b.height b.tiles p q) : step_rel b p q := by
  obtain ⟨hp, hq, hd⟩ := h
  have hq1 : p.1 + (q.1 - p.1) = q.1 := by ring
  have hq2 : p.2 + (q.2 - p.2) = q.2 := by ring
  have hw : is_walkable b (p.1 + (q.1 - p.1)) (p.2 + (q.2 - p.2)) = true := by
    rw [hq1, hq2]; exact is_walkable_of_walk hq
  refine ⟨(q.1 - p.1, q.2 - p.2), ?_, ?_, ?_⟩
  · simp only [dirs4, List.mem_cons, List.not_mem_nil, or_false, Prod.mk.injEq]
    omega
  · unfold can_move
    rw [if_pos hw]
  · unfold apply_move
    rw [if_pos hw, hq1, hq2]

lemma reach_t_reachable {b : Board} {s p : Int × Int}
    (h : reach_t b.width b.height b.tiles s p) : reachable b s p :=
  Relation.ReflTransGen.mono (fun _ _ hadj => adj_t_step hadj) h

/-- `t'` has no more walls than `t`. -/
def tiles_le (t t' : Tiles) : Prop :=
  ∀ y x, t' y x = TILE_WALL → t y x = TILE_WALL

lemma walk_t_mono {w h : Int} {t t' : Tiles} (hle : tiles_le t t')
    {p : Int × Int} (hp : walk_t w h t p) : walk_t w h t' p :=
  ⟨hp.1, fun hc => hp.2 (hle _ _ hc)⟩

lemma reach_t_mono {w h : Int} {t t' : Tiles} (hle : tiles_le t t')
    {s p : Int × Int} (hr : reach_t w h t s p) : reach_t w h t' s p :=
  Relation.ReflTransGen.mono
    (fun _ _ ha => ⟨walk_t_mono hle ha.1, walk_t_mono hle ha.2.1, ha.2.2⟩) hr

lemma adj_t_symm {w h : Int} {t : Tiles} :
    ∀ {p q : Int × Int}, adj_t w h t p q → adj_t w h t q p := by
  rintro p q ⟨ha, hb, hd⟩
  exact ⟨hb, ha, by omega⟩

lemma reach_t_symm {w h : Int} {t : Tiles} {p q : Int × Int}
    (hr : reach_t w h t p q) : reach_t w h t q p :=
  Relation.ReflTransGen.symmetric (fun _ _ ha => adj_t_symm ha) hr

lemma reach_t_right {w h : Int} {t : Tiles} (y : Int) :
    ∀ (n : Nat) (x : Int), (∀ i : Int, x ≤ i → i ≤ x + n → walk_t w h t (i, y)) →
      reach_t w h t (x, y) (x + (n : Int), y)
  | 0, x, _ => by simpa using Relation.ReflTransGen.refl
  | n + 1, x, hw => by
    have hr := reach_t_right y n x (fun i h1 h2 => hw i h1 (by omega))
    refine hr.tail ⟨hw _ (by omega) (by omega), hw _ (by omega) (by omega), ?_⟩
    push_cast
    omega

lemma reach_t_row {w h : Int} {t : Tiles} {y x1 x2 : Int}
    (hle : x1 ≤ x2)
    (hw : ∀ i : Int, x1 ≤ i → i ≤ x2 → walk_t w h t (i, y)) :
    reach_t w h t (x1, y) (x2, y) := by
  have hx : x2 = x1 + ((x2 - x1).toNat : Int) := by omega
  rw [hx]
  exact reach_t_right y (x2 - x1).toNat x1 (fun i h1 h2 => hw i h1 (by omega))

lemma reach_t_down {w h : Int} {t : Tiles} (x : Int) :
    ∀ (n : Nat) (y : Int), (∀ j : Int, y ≤ j → j ≤ y + n → walk_t w h t (x, j)) →
      reach_t w h t (x, y) (x, y + (n : Int))
  | 0, y, _ => by simpa using Relation.ReflTransGen.refl
  | n + 1, y, hw => by
    have hr := reach_t_down x n y (fun j h1 h2 => hw j h1 (by omega))
    refine hr.tail ⟨hw _ (by omega) (by omega), hw _ (by omega) (by omega), ?_⟩
    push_cast
    omega

lemma reach_t_col {w h : Int} {t : Tiles} {x y1 y2 : Int}
    (hle : y1 ≤ y2)
    (hw : ∀ j : Int, y1 ≤ j → j ≤ y2 → walk_t w h t (x, j)) :
    reach_t w h t (x, y1) (x, y2) := by
  have hy : y2 = y1 + ((y2 - y1).toNat : Int) := by omega
  rw [hy]
  exact reach_t_down x (y2 - y1).toNat y1 (fun j h1 h2 => hw j h1 (by omega))

/-! ## Lemmas about the write helpers -/

lemma set2_self (t : Tiles) (x y : Int) (v : Nat) : set2 t x y v y x = v := by
  simp [set2]

lemma set2_eq_or (t : Tiles) (x y : Int) (v : Nat) (j i : Int) :
    set2 t x y v j i = v ∨ set2 t x y v j i = t j i := by
  unfold set2
  split
  · exact Or.inl rfl
  · exact Or.inr rfl

lemma set2_other (t : Tiles) (x y : Int) (v : Nat) {j i : Int}
    (h : ¬(j = y ∧ i = x)) : set2 t x y v j i = t j i := by
  simp only [set2, if_neg h]

lemma set_cells_nil (p : Tiles → Int × Int → Bool) (t : Tiles) :
    set_cells p [] t = t := rfl

lemma set_cells_cons (p : Tiles → Int × Int → Bool) (c : Int × Int)
    (cs : List (Int × Int)) (t : Tiles) :
    set_cells p (c :: cs) t =
      set_cells p cs (if p t c then set2 t c.1 c.2 TILE_PELLET else t) := rfl

lemma set_cells_eq_or (p : Tiles → Int × Int → Bool)
    (cs : List (Int × Int)) :
    ∀ (t : Tiles) (y x : Int),
      set_cells p cs t y x = t y x ∨ set_cells p cs t y x = TILE_PELLET := by
  induction cs with
  | nil => intro t y x; exact Or.inl rfl
  | cons c cs ih =>
    intro t y x
    rw [set_cells_cons]
    rcases ih (if p t c then set2 t c.1 c.2 TILE_PELLET else t) y x with h1 | h1
    · rw [h1]
      split
      · rcases set2_eq_or t c.1 c.2 TILE_PELLET y x with h2 | h2
        · exact Or.inr h2
        · exact Or.inl h2
      · exact Or.inl rfl
    · exact Or.inr h1

lemma set_cells_le (p : Tiles → Int × Int → Bool) (cs : List (Int × Int))
    (t : Tiles) : tiles_le t (set_cells p cs t) := by
  intro y x hwall
  rcases set_cells_eq_or p cs t y x with h1 | h1
  · rw [← h1]; exact hwall
  · rw [h1] at hwall; exact absurd hwall (by decide)

lemma set_cells_pellet_pres (p : Tiles → Int × Int → Bool)
    (cs : List (Int × Int)) {t : Tiles} {y x : Int}
    (h : t y x = TILE_PELLET) : set_cells p cs t y x = TILE_PELLET := by
  rcases set_cells_eq_or p cs t y x with h1 | h1
  · rw [h1, h]
  · exact h1

lemma set_cells_not_wall_pres (p : Tiles → Int × Int → Bool)
    (cs : List (Int × Int)) {t : Tiles} {y x : Int}
    (h : t y x ≠ TILE_WALL) : set_cells p cs t y x ≠ TILE_WALL := by
  rcases set_cells_eq_or p cs t y x with h1 | h1
  · rw [h1]; exact h
  · rw [h1]; decide

lemma set_cells_no_power_pres (p : Tiles → Int × Int → Bool)
    (cs : List (Int × Int)) {t : Tiles} {y x : Int}
    (h : t y x ≠ TILE_POWER) : set_cells p cs t y x ≠ TILE_POWER := by
  rcases set_cells_eq_or p cs t y x with h1 | h1
  · rw [h1]; exact h
  · rw [h1]; decide

lemma set_cells_not_mem (p : Tiles → Int × Int → Bool) :
    ∀ (cs : List (Int × Int)) (t : Tiles) {y x : Int},
      (∀ c ∈ cs, c ≠ (x, y)) → set_cells p cs t y x = t y x := by
  intro cs
  induction cs with
  | nil => intro t y x _; rfl
  | cons c cs ih =>
    intro t y x hno
    rw [set_cells_cons]
    rw [ih _ (fun c' hc' => hno c' (List.mem_cons_of_mem c hc'))]
    split
    · refine set2_other t c.1 c.2 TILE_PELLET ?_
      rintro ⟨hy, hx⟩
      exact hno c (List.mem_cons_self c cs) (by rw [Prod.ext_iff]; exact ⟨hx.symm, hy.symm⟩)
    · rfl

lemma set_cells_pellet_src (p : Tiles → Int × Int → Bool)
    (cs : List (Int × Int)) (t : Tiles) {y x : Int}
    (h : set_cells p cs t y x = TILE_PELLET) :
    t y x = TILE_PELLET ∨ (x, y) ∈ cs := by
  by_cases hm : (x, y) ∈ cs
  · exact Or.inr hm
  · left
    rw [← set_cells_not_mem p cs t (fun c hc he => hm (he ▸ hc))]
    exact h

lemma set_cells_mem_of_true :
    ∀ (cs : List (Int × Int)) (t : Tiles), ∀ c ∈ cs,
      set_cells (fun _ _ => true) cs t c.2 c.1 = TILE_PELLET := by
  intro cs
  induction cs with
  | nil => intro t c hc; cases hc
  | cons c' cs ih =>
    intro t c hc
    rw [set_cells_cons]
    rcases List.mem_cons.mp hc with he | hm
    · subst he
      simp only [if_pos rfl]
      exact set_cells_pellet_pres _ cs (set2_self t c.1 c.2 TILE_PELLET)
    · exact ih _ c hm

lemma set_cells_wallp_clears :
    ∀ (cs : List (Int × Int)) (t : Tiles), ∀ c ∈ cs,
      set_cells wall_p cs t c.2 c.1 ≠ TILE_WALL := by
  intro cs
  induction cs with
  | nil => intro t c hc; cases hc
  | cons c' cs ih =>
    intro t c hc
    rw [set_cells_cons]
    rcases List.mem_cons.mp hc with he | hm
    · subst he
      refine set_cells_not_wall_pres _ cs ?_
      unfold wall_p
      split
      · rw [set2_self]; decide
      · simp_all
    · exact ih _ c hm

lemma mem_row_cells {w cy x y : Int} :
    (x, y) ∈ row_cells w cy ↔ y = cy ∧ 1 ≤ x ∧ x ≤ w - 2 := by
  simp only [row_cells, List.mem_map, List.mem_range, Prod.mk.injEq]
  constructor
  · rintro ⟨i, hi, hx, hy⟩
    omega
  · rintro ⟨h1, h2, h3⟩
    exact ⟨(x - 1).toNat, by omega, by omega, by omega⟩

lemma mem_col_cells {h cx x y : Int} :
    (x, y) ∈ col_cells h cx ↔ x = cx ∧ 1 ≤ y ∧ y ≤ h - 2 := by
  simp only [col_cells, List.mem_map, List.mem_range, Prod.mk.injEq]
  constructor
  · rintro ⟨j, hj, hx, hy⟩
    omega
  · rintro ⟨h1, h2, h3⟩
    exact ⟨(y - 1).toNat, by omega, by omega, by omega⟩

lemma odd_within_close {v lo hi : Int} (h1 : lo ≤ v) (h2 : v ≤ hi) :
    lo ≤ odd_within v lo hi ∧ odd_within v lo hi ≤ hi ∧
      (odd_within v lo hi - v).natAbs ≤ 1 := by
  have hmm : max lo (min hi v) = v := by omega
  unfold odd_within
  rw [hmm]
  dsimp only
  split_ifs <;> omega

/-! ## The DFS invariant -/

/-- The connectivity invariant carried through every generation pass:
interior pellets are reachable from the start cell, cells outside the
interior are untouched, no interior cell holds a power pellet, and the
start cell stays a pellet. -/
def maze_inv (w h : Int) (base : Tiles) (s : Int × Int) (t : Tiles) : Prop :=
  (∀ x y, inb w h (x, y) → t y x = TILE_PELLET → reach_t w h t s (x, y)) ∧
  (∀ x y, ¬inb w h (x, y) → t y x = base y x) ∧
  (∀ x y, inb w h (x, y) → t y x ≠ TILE_POWER) ∧
  t s.2 s.1 = TILE_PELLET

/-- The invariant of the DFS loop: `maze_inv` plus every stack cell being an
interior pellet. -/
structure DfsInv (w h : Int) (base : Tiles) (s : Int × Int) (st : DfsSt) :
    Prop where
  stack_ok : ∀ p ∈ st.stack, inb w h p ∧ st.tiles p.2 p.1 = TILE_PELLET
  reach_ok : ∀ x y, inb w h (x, y) → st.tiles y x = TILE_PELLET →
    reach_t w h st.tiles s (x, y)
  outer_ok : ∀ x y, ¬inb w h (x, y) → st.tiles y x = base y x
  no_power : ∀ x y, inb w h (x, y) → st.tiles y x ≠ TILE_POWER
  start_pellet : st.tiles s.2 s.1 = TILE_PELLET

lemma getD_mod_mem {α : Type} {l : List α} (h : l ≠ []) (i : Nat) (d : α) :
    l.getD (i % l.length) d ∈ l := by
  have hlen : i % l.length < l.length := Nat.mod_lt _ (List.length_pos.mpr h)
  rw [List.getD_eq_getElem l d hlen]
  exact List.getElem_mem hlen

lemma neighbors2_mem {w h : Int} {t : Tiles} {x y : Int}
    {c : (Int × Int) × (Int × Int)} (hc : c ∈ neighbors2 w h t x y) :
    ((c.2.1 = 2 ∧ c.2.2 = 0) ∨ (c.2.1 = -2 ∧ c.2.2 = 0) ∨
      (c.2.1 = 0 ∧ c.2.2 = 2) ∨ (c.2.1 = 0 ∧ c.2.2 = -2)) ∧
    c.1.1 = x + c.2.1 ∧ c.1.2 = y + c.2.2 ∧ 1 ≤ c.1.1 ∧ c.1.1 ≤ w - 2 ∧
    1 ≤ c.1.2 ∧ c.1.2 ≤ h - 2 ∧ t c.1.2 c.1.1 = TILE_WALL := by
  simp only [neighbors2, List.mem_filterMap, List.mem_cons, List.not_mem_nil,
    or_false] at hc
  obtain ⟨d, hd, hif⟩ := hc
  by_cases hcond : 1 ≤ x + d.1 ∧ x + d.1 ≤ w - 2 ∧ 1 ≤ y + d.2 ∧
      y + d.2 ≤ h - 2 ∧ t (y + d.2) (x + d.1) = TILE_WALL
  · rw [if_pos hcond, Option.some_inj] at hif
    subst hif
    obtain ⟨hb1, hb2, hb3, hb4, hb5⟩ := hcond
    refine ⟨?_, rfl, rfl, hb1, hb2, hb3, hb4, hb5⟩
    rcases hd with h1 | h1 | h1 | h1 <;> rw [Prod.ext_iff] at h1 <;>
      simp [h1.1, h1.2]
  · rw [if_neg hcond] at hif
    cases hif

lemma dfs_step_inv {w h : Int} {base : Tiles} {s : Int × Int} (rs : Nat → Nat)
    {st : DfsSt} (hinv : DfsInv w h base s st) :
    DfsInv w h base s (dfs_step w h rs st) := by
  obtain ⟨t, stk, k⟩ := st
  obtain ⟨hstack, hreach, houter, hpow, hsp⟩ := hinv
  cases stk with
  | nil => exact ⟨hstack, hreach, houter, hpow, hsp⟩
  | cons hd rest =>
    obtain ⟨x, y⟩ := hd
    have hxy := hstack (x, y) (List.mem_cons_self _ _)
    obtain ⟨hxyb, hxypel⟩ := hxy
    by_cases hne : (neighbors2 w h t x y).isEmpty
    · have hstep : dfs_step w h rs ⟨t, (x, y) :: rest, k⟩ =
          ⟨t, rest, k⟩ := by
        unfold dfs_step
        simp only [hne, if_true]
      rw [hstep]
      exact ⟨fun p hp => hstack p (List.mem_cons_of_mem _ hp),
        hreach, houter, hpow, hsp⟩
    · have hnil : neighbors2 w h t x y ≠ [] := by
        intro hcontra; rw [hcontra] at hne; exact hne rfl
      rcases hc : (neighbors2 w h t x y).getD
          (rs k % (neighbors2 w h t x y).length) ((0, 0), (0, 0)) with ⟨⟨nx, ny⟩, dx, dy⟩
      have hcm : ((nx, ny), (dx, dy)) ∈ neighbors2 w h t x y :=
        hc ▸ getD_mod_mem hnil _ _
      obtain ⟨hdir, hnx, hny, hb1, hb2, hb3, hb4, hwall⟩ := neighbors2_mem hcm
      simp only at hdir hnx hny hb1 hb2 hb3 hb4 hwall
      have hstep : dfs_step w h rs ⟨t, (x, y) :: rest, k⟩ =
          { tiles := set2 (set2 t (x + dx / 2) (y + dy / 2) TILE_PELLET)
              nx ny TILE_PELLET
            stack := (nx, ny) :: (x, y) :: rest
            k := k + 1 } := by
        unfold dfs_step
        simp only [hne, Bool.false_eq_true, if_false, hc]
      rw [hstep]
      have hwxb : 1 ≤ x + dx / 2 ∧ x + dx / 2 ≤ w - 2 ∧
          1 ≤ y + dy / 2 ∧ y + dy / 2 ≤ h - 2 := by
        obtain ⟨ha1, ha2, ha3, ha4⟩ := hxyb
        omega
      have hdist1 : (x - (x + dx / 2)).natAbs + (y - (y + dy / 2)).natAbs = 1 := by
        omega
      have hdist2 : ((x + dx / 2) - nx).natAbs + ((y + dy / 2) - ny).natAbs = 1 := by
        omega
      have hpres : ∀ j i, t j i = TILE_PELLET →
          set2 (set2 t (x + dx / 2) (y + dy / 2) TILE_PELLET) nx ny TILE_PELLET j i
            = TILE_PELLET := by
        intro j i hji
        rcases set2_eq_or (set2 t (x + dx / 2) (y + dy / 2) TILE_PELLET)
          nx ny TILE_PELLET j i with hv | hv
        · exact hv
        · rw [hv]
          rcases set2_eq_or t (x + dx / 2) (y + dy / 2) TILE_PELLET j i with hv2 | hv2
          · exact hv2
          · rw [hv2]; exact hji
      have hle : tiles_le t
          (set2 (set2 t (x + dx / 2) (y + dy / 2) TILE_PELLET) nx ny TILE_PELLET) := by
        intro j i hwl
        rcases set2_eq_or (set2 t (x + dx / 2) (y + dy / 2) TILE_PELLET)
          nx ny TILE_PELLET j i with hv | hv
        · rw [hv] at hwl; exact absurd hwl (by decide)
        · rw [hv] at hwl
          rcases set2_eq_or t (x + dx / 2) (y + dy / 2) TILE_PELLET j i with hv2 | hv2
          · rw [hv2] at hwl; exact absurd hwl (by decide)
          · rw [hv2] at hwl; exact hwl
      have ht'n : set2 (set2 t (x + dx / 2) (y + dy / 2) TILE_PELLET)
          nx ny TILE_PELLET ny nx = TILE_PELLET := set2_self _ nx ny _
      have ht'w : set2 (set2 t (x + dx / 2) (y + dy / 2) TILE_PELLET)
          nx ny TILE_PELLET (y + dy / 2) (x + dx / 2) = TILE_PELLET := by
        rcases set2_eq_or (set2 t (x + dx / 2) (y + dy / 2) TILE_PELLET)
          nx ny TILE_PELLET (y + dy / 2) (x + dx / 2) with hv | hv
        · exact hv
        · rw [hv]; exact set2_self _ _ _ _
      have hreach2 : reach_t w h
          (set2 (set2 t (x + dx / 2) (y + dy / 2) TILE_PELLET) nx ny TILE_PELLET)
          s (nx, ny) ∧
        reach_t w h
          (set2 (set2 t (x + dx / 2) (y + dy / 2) TILE_PELLET) nx ny TILE_PELLET)
          s (x + dx / 2, y + dy / 2) := by
        have hsx := reach_t_mono hle (hreach x y hxyb hxypel)
        have hwxy : walk_t w h
            (set2 (set2 t (x + dx / 2) (y + dy / 2) TILE_PELLET) nx ny TILE_PELLET)
            (x, y) := ⟨hxyb, by rw [hpres y x hxypel]; decide⟩
        have hww : walk_t w h
            (set2 (set2 t (x + dx / 2) (y + dy / 2) TILE_PELLET) nx ny TILE_PELLET)
            (x + dx / 2, y + dy / 2) :=
          ⟨⟨hwxb.1, hwxb.2.1, hwxb.2.2.1, hwxb.2.2.2⟩, by rw [ht'w]; decide⟩
        have hwn : walk_t w h
            (set2 (set2 t (x + dx / 2) (y + dy / 2) TILE_PELLET) nx ny TILE_PELLET)
            (nx, ny) := ⟨⟨hb1, hb2, hb3, hb4⟩, by rw [ht'n]; decide⟩
        have hrw := hsx.tail ⟨hwxy, hww, hdist1⟩
        exact ⟨hrw.tail ⟨hww, hwn, hdist2⟩, hrw⟩
      refine ⟨?_, ?_, ?_, ?_, ?_⟩
      · intro p hp
        rcases List.mem_cons.mp hp with he | hm
        · subst he
          exact ⟨⟨hb1, hb2, hb3, hb4⟩, ht'n⟩
        · obtain ⟨hpi, hpp⟩ := hstack p hm
          exact ⟨hpi, hpres _ _ hpp⟩
      · intro a bb hain hapel
        dsimp only at hapel
        by_cases h1 : bb = ny ∧ a = nx
        · obtain ⟨e1, e2⟩ := h1; subst e1; subst e2
          exact hreach2.1
        · rw [set2_other _ _ _ _ h1] at hapel
          by_cases h2 : bb = y + dy / 2 ∧ a = x + dx / 2
          · obtain ⟨e1, e2⟩ := h2; subst e1; subst e2
            exact hreach2.2
          · rw [set2_other _ _ _ _ h2] at hapel
            exact reach_t_mono hle (hreach a bb hain hapel)
      · intro a bb hnin
        have h1 : ¬(bb = ny ∧ a = nx) := by
          rintro ⟨e1, e2⟩
          exact hnin (by subst e1; subst e2; exact ⟨hb1, hb2, hb3, hb4⟩)
        have h2 : ¬(bb = y + dy / 2 ∧ a = x + dx / 2) := by
          rintro ⟨e1, e2⟩
          refine hnin ?_
          subst e1; subst e2
          exact ⟨hwxb.1, hwxb.2.1, hwxb.2.2.1, hwxb.2.2.2⟩
        show set2 (set2 t (x + dx / 2) (y + dy / 2) TILE_PELLET)
          nx ny TILE_PELLET bb a = base bb a
        rw [set2_other _ _ _ _ h1, set2_other _ _ _ _ h2]
        exact houter a bb hnin
      · intro a bb hain
        show set2 (set2 t (x + dx / 2) (y + dy / 2) TILE_PELLET)
          nx ny TILE_PELLET bb a ≠ TILE_POWER
        rcases set2_eq_or (set2 t (x + dx / 2) (y + dy / 2) TILE_PELLET)
          nx ny TILE_PELLET bb a with hv | hv
        · rw [hv]; decide
        · rw [hv]
          rcases set2_eq_or t (x + dx / 2) (y + dy / 2) TILE_PELLET bb a with hv2 | hv2
          · rw [hv2]; decide
          · rw [hv2]; exact hpow a bb hain
      · exact hpres _ _ hsp

lemma dfs_run_inv {w h : Int} {base : Tiles} {s : Int × Int} (rs : Nat → Nat) :
    ∀ (fuel : Nat) (st : DfsSt), DfsInv w h base s st →
      DfsInv w h base s (dfs_run w h rs fuel st) := by
  intro fuel
  induction fuel with
  | zero => intro st hst; exact hst
  | succ n ih =>
    intro st hst
    unfold dfs_run
    split
    · exact hst
    · exact ih _ (dfs_step_inv rs hst)

/-- The DFS phase establishes the maze invariant over the wall-filled
grid. -/
lemma dfs_tiles_maze_inv {w h : Int} (rs : Nat → Nat) (base : Tiles)
    {s : Int × Int} (hs : inb w h s) :
    maze_inv w h base s (dfs_tiles w h rs (wall_fill w h base) s) := by
  have hinit : DfsInv w h base s
      { tiles := set2 (wall_fill w h base) s.1 s.2 TILE_PELLET,
        stack := [s], k := 0 } := by
    refine ⟨?_, ?_, ?_, ?_, ?_⟩
    · intro p hp
      rcases List.mem_cons.mp hp with he | hm
      · subst he
        exact ⟨hs, by obtain ⟨a, b⟩ := p; exact set2_self _ _ _ _⟩
      · cases hm
    · intro a bb hain hapel
      dsimp only at hapel ⊢
      by_cases hcell : (bb = s.2 ∧ a = s.1)
      · obtain ⟨h1, h2⟩ := hcell; subst h1; subst h2
        have heq : ((s.1, s.2) : Int × Int) = s := rfl
        rw [heq]
        exact Relation.ReflTransGen.refl
      · rw [set2_other _ _ _ _ hcell] at hapel
        unfold wall_fill at hapel
        rw [if_pos (by obtain ⟨q1, q2, q3, q4⟩ := hain; exact ⟨q3, q4, q1, q2⟩)]
          at hapel
        exact absurd hapel (by decide)
    · intro a bb hnin
      dsimp only
      have hcell : ¬(bb = s.2 ∧ a = s.1) := by
        rintro ⟨h1, h2⟩
        exact hnin (by subst h1; subst h2; exact hs)
      rw [set2_other _ _ _ _ hcell]
      unfold wall_fill
      refine if_neg ?_
      intro hq
      exact hnin ⟨hq.2.2.1, hq.2.2.2, hq.1, hq.2.1⟩
    · intro a bb hain
      dsimp only
      rcases set2_eq_or (wall_fill w h base) s.1 s.2 TILE_PELLET bb a with hv | hv
      · rw [hv]; decide
      · rw [hv]
        unfold wall_fill
        rw [if_pos (by obtain ⟨q1, q2, q3, q4⟩ := hain; exact ⟨q3, q4, q1, q2⟩)]
        decide
    · exact set2_self _ _ _ _
  have hfin := dfs_run_inv rs (2 * (w.toNat * h.toNat) + 2) _ hinit
  exact ⟨hfin.reach_ok, hfin.outer_ok, hfin.no_power, hfin.start_pellet⟩

lemma tiles_le_trans {t1 t2 t3 : Tiles} (h1 : tiles_le t1 t2)
    (h2 : tiles_le t2 t3) : tiles_le t1 t3 :=
  fun y x hw => h1 y x (h2 y x hw)

/-- The braiding pass preserves the maze invariant: every opened wall had a
carved pellet next to it. -/
lemma braid_maze_inv {w h : Int} {base : Tiles} {s : Int × Int} {t : Tiles}
    (pick : Int × Int → Bool) (hm : maze_inv w h base s t) :
    maze_inv w h base s (braid w h pick t) := by
  obtain ⟨hreach, houter, hpow, hsp⟩ := hm
  show maze_inv w h base s
    (set_cells (fun _ c => pick c) ((inner_list w h).filter (braid_ok w h t)) t)
  have hle : tiles_le t
      (set_cells (fun _ c => pick c) ((inner_list w h).filter (braid_ok w h t)) t) :=
    set_cells_le _ _ _
  refine ⟨?_, ?_, ?_, set_cells_pellet_pres _ _ hsp⟩
  · intro a bb hain hapel
    rcases set_cells_pellet_src _ _ _ hapel with hold | hmem
    · exact reach_t_mono hle (hreach a bb hain hold)
    · rw [List.mem_filter] at hmem
      obtain ⟨_, hok⟩ := hmem
      simp only [braid_ok, decide_eq_true_eq] at hok
      obtain ⟨hwall, hnb⟩ := hok
      obtain ⟨q1, q2, q3, q4⟩ := hain
      rcases hnb with ⟨e1, e2, e3, e4⟩ | ⟨e1, e2, e3, e4⟩
      · have hnbin : inb w h (a - 1, bb) := ⟨e1, by omega, q3, q4⟩
        have hnreach := reach_t_mono hle (hreach (a - 1) bb hnbin e3)
        refine hnreach.tail ⟨⟨hnbin, ?_⟩, ⟨⟨q1, q2, q3, q4⟩, ?_⟩, ?_⟩
        · rw [set_cells_pellet_pres _ _ e3]; decide
        · rw [hapel]; decide
        · simp only
          omega
      · have hnbin : inb w h (a, bb - 1) := ⟨q1, q2, e1, by omega⟩
        have hnreach := reach_t_mono hle (hreach a (bb - 1) hnbin e3)
        refine hnreach.tail ⟨⟨hnbin, ?_⟩, ⟨⟨q1, q2, q3, q4⟩, ?_⟩, ?_⟩
        · rw [set_cells_pellet_pres _ _ e3]; decide
        · rw [hapel]; decide
        · simp only
          omega
  · intro a bb hnin
    rw [set_cells_not_mem]
    · exact houter a bb hnin
    · intro cc hcc he
      obtain ⟨cc1, cc2⟩ := cc
      rw [List.mem_filter] at hcc
      have hcin := mem_inner_list.mp hcc.1
      exact hnin (he ▸ hcin)
  · intro a bb hain
    exact set_cells_no_power_pres _ _ (hpow a bb hain)

/-- After the tunnel pass the whole center row and center column are
pellets. -/
def cross_prop (w h : Int) (c : Int × Int) (t : Tiles) : Prop :=
  (∀ x : Int, 1 ≤ x → x ≤ w - 2 → t c.2 x = TILE_PELLET) ∧
  (∀ y : Int, 1 ≤ y → y ≤ h - 2 → t y c.1 = TILE_PELLET)

/-- The tunnel pass preserves the maze invariant and makes the full cross
pellets: the cross touches the start cell (the odd-snapped center is at
distance at most 1 from the center column), so the whole cross becomes
reachable. -/
lemma cross_maze_inv {w h : Int} {base : Tiles} {s c : Int × Int} {t : Tiles}
    (hcb : inb w h c) (hsb : inb w h s) (hclose : (s.1 - c.1).natAbs ≤ 1)
    (hm : maze_inv w h base s t) :
    maze_inv w h base s (carve_cross w h c t) ∧
      cross_prop w h c (carve_cross w h c t) := by
  obtain ⟨hreach, houter, hpow, hsp⟩ := hm
  obtain ⟨hc1, hc2, hc3, hc4⟩ := hcb
  obtain ⟨hs1, hs2, hs3, hs4⟩ := hsb
  show maze_inv w h base s
      (set_cells (fun _ _ => true) (col_cells h c.1)
        (set_cells (fun _ _ => true) (row_cells w c.2) t)) ∧ _
  have hle : tiles_le t
      (set_cells (fun _ _ => true) (col_cells h c.1)
        (set_cells (fun _ _ => true) (row_cells w c.2) t)) :=
    tiles_le_trans (set_cells_le _ _ _) (set_cells_le _ _ _)
  have hrowp : ∀ x : Int, 1 ≤ x → x ≤ w - 2 →
      set_cells (fun _ _ => true) (col_cells h c.1)
        (set_cells (fun _ _ => true) (row_cells w c.2) t) c.2 x = TILE_PELLET := by
    intro x h1 h2
    refine set_cells_pellet_pres _ _ ?_
    have hmem : ((x, c.2) : Int × Int) ∈ row_cells w c.2 :=
      mem_row_cells.mpr ⟨rfl, h1, h2⟩
    exact set_cells_mem_of_true _ t (x, c.2) hmem
  have hcolp : ∀ y : Int, 1 ≤ y → y ≤ h - 2 →
      set_cells (fun _ _ => true) (col_cells h c.1)
        (set_cells (fun _ _ => true) (row_cells w c.2) t) y c.1 = TILE_PELLET := by
    intro y h1 h2
    have hmem : ((c.1, y) : Int × Int) ∈ col_cells h c.1 :=
      mem_col_cells.mpr ⟨rfl, h1, h2⟩
    exact set_cells_mem_of_true _ _ (c.1, y) hmem
  have hcolw : ∀ y : Int, 1 ≤ y → y ≤ h - 2 →
      walk_t w h (set_cells (fun _ _ => true) (col_cells h c.1)
        (set_cells (fun _ _ => true) (row_cells w c.2) t)) (c.1, y) := by
    intro y h1 h2
    exact ⟨⟨hc1, hc2, h1, h2⟩, by rw [hcolp y h1 h2]; decide⟩
  have hroww : ∀ x : Int, 1 ≤ x → x ≤ w - 2 →
      walk_t w h (set_cells (fun _ _ => true) (col_cells h c.1)
        (set_cells (fun _ _ => true) (row_cells w c.2) t)) (x, c.2) := by
    intro x h1 h2
    exact ⟨⟨h1, h2, hc3, hc4⟩, by rw [hrowp x h1 h2]; decide⟩
  -- the start connects to the center column
  have hbridge : reach_t w h (set_cells (fun _ _ => true) (col_cells h c.1)
      (set_cells (fun _ _ => true) (row_cells w c.2) t)) s (c.1, s.2) := by
    by_cases hsc : s.1 = c.1
    · have heq : ((c.1, s.2) : Int × Int) = s := by
        rw [← hsc]
      rw [heq]
      exact Relation.ReflTransGen.refl
    · refine Relation.ReflTransGen.single ⟨⟨⟨hs1, hs2, hs3, hs4⟩, ?_⟩,
        hcolw s.2 hs3 hs4, ?_⟩
      · rw [set_cells_pellet_pres _ _ (set_cells_pellet_pres _ _ hsp)]
        decide
      · simp only
        omega
  have hcol_reach : ∀ y : Int, 1 ≤ y → y ≤ h - 2 →
      reach_t w h (set_cells (fun _ _ => true) (col_cells h c.1)
        (set_cells (fun _ _ => true) (row_cells w c.2) t)) s (c.1, y) := by
    intro y h1 h2
    rcases le_total s.2 y with hy | hy
    · exact hbridge.trans (reach_t_col hy (fun j hj1 hj2 => hcolw j (by omega) (by omega)))
    · exact hbridge.trans (reach_t_symm
        (reach_t_col hy (fun j hj1 hj2 => hcolw j (by omega) (by omega))))
  have hrow_reach : ∀ x : Int, 1 ≤ x → x ≤ w - 2 →
      reach_t w h (set_cells (fun _ _ => true) (col_cells h c.1)
        (set_cells (fun _ _ => true) (row_cells w c.2) t)) s (x, c.2) := by
    intro x h1 h2
    have hcc := hcol_reach c.2 hc3 hc4
    rcases le_total c.1 x with hx | hx
    · exact hcc.trans (reach_t_row hx (fun i hi1 hi2 => hroww i (by omega) (by omega)))
    · exact hcc.trans (reach_t_symm
        (reach_t_row hx (fun i hi1 hi2 => hroww i (by omega) (by omega))))
  refine ⟨⟨?_, ?_, ?_, ?_⟩, hrowp, hcolp⟩
  · intro a bb hain hapel
    rcases set_cells_pellet_src _ _ _ hapel with hmid | hmem
    · rcases set_cells_pellet_src _ _ _ hmid with hold | hmem'
      · exact reach_t_mono hle (hreach a bb hain hold)
      · obtain ⟨hb', h1, h2⟩ := mem_row_cells.mp hmem'
        subst hb'
        exact hrow_reach a h1 h2
    · obtain ⟨ha', h1, h2⟩ := mem_col_cells.mp hmem
      subst ha'
      exact hcol_reach bb h1 h2
  · intro a bb hnin
    rw [set_cells_not_mem, set_cells_not_mem]
    · exact houter a bb hnin
    · intro cc hcc he
      obtain ⟨cc1, cc2⟩ := cc
      obtain ⟨hb', h1, h2⟩ := mem_row_cells.mp hcc
      refine hnin (he ▸ ?_)
      exact ⟨h1, h2, hb' ▸ hc3, hb' ▸ hc4⟩
    · intro cc hcc he
      obtain ⟨cc1, cc2⟩ := cc
      obtain ⟨ha', h1, h2⟩ := mem_col_cells.mp hcc
      refine hnin (he ▸ ?_)
      exact ⟨ha' ▸ hc1, ha' ▸ hc2, h1, h2⟩
  · intro a bb hain
    exact set_cells_no_power_pres _ _
      (set_cells_no_power_pres _ _ (hpow a bb hain))
  · exact set_cells_pellet_pres _ _ (set_cells_pellet_pres _ _ hsp)

/-- The border de-doubling pass preserves the maze invariant: the opened
cells lie on the rightmost interior column and bottom interior row, both of
which touch the (already reachable) tunnel cross. -/
lemma de_double_maze_inv {w h : Int} {base : Tiles} {s c : Int × Int}
    {t : Tiles} (hcb : inb w h c) (hm : maze_inv w h base s t)
    (hcp : cross_prop w h c t) :
    maze_inv w h base s (de_double w h t) := by
  obtain ⟨hreach, houter, hpow, hsp⟩ := hm
  obtain ⟨hc1, hc2, hc3, hc4⟩ := hcb
  obtain ⟨hrowp, hcolp⟩ := hcp
  show maze_inv w h base s
    (set_cells wall_p (row_cells w (h - 2)) (set_cells wall_p (col_cells h (w - 2)) t))
  have hle : tiles_le t
      (set_cells wall_p (row_cells w (h - 2))
        (set_cells wall_p (col_cells h (w - 2)) t)) :=
    tiles_le_trans (set_cells_le _ _ _) (set_cells_le _ _ _)
  -- the whole rightmost interior column and bottom interior row end open
  have hrightw : ∀ y : Int, 1 ≤ y → y ≤ h - 2 →
      walk_t w h (set_cells wall_p (row_cells w (h - 2))
        (set_cells wall_p (col_cells h (w - 2)) t)) (w - 2, y) := by
    intro y h1 h2
    refine ⟨⟨by omega, le_refl _, h1, h2⟩, ?_⟩
    refine set_cells_not_wall_pres _ _ ?_
    have hmem : ((w - 2, y) : Int × Int) ∈ col_cells h (w - 2) :=
      mem_col_cells.mpr ⟨rfl, h1, h2⟩
    exact set_cells_wallp_clears _ t (w - 2, y) hmem
  have hbotw : ∀ x : Int, 1 ≤ x → x ≤ w - 2 →
      walk_t w h (set_cells wall_p (row_cells w (h - 2))
        (set_cells wall_p (col_cells h (w - 2)) t)) (x, h - 2) := by
    intro x h1 h2
    refine ⟨⟨h1, h2, by omega, le_refl _⟩, ?_⟩
    have hmem : ((x, h - 2) : Int × Int) ∈ row_cells w (h - 2) :=
      mem_row_cells.mpr ⟨rfl, h1, h2⟩
    exact set_cells_wallp_clears _ _ (x, h - 2) hmem
  -- anchors on the cross
  have hanchor_r : reach_t w h (set_cells wall_p (row_cells w (h - 2))
      (set_cells wall_p (col_cells h (w - 2)) t)) s (w - 2, c.2) :=
    reach_t_mono hle (hreach (w - 2) c.2 ⟨by omega, le_refl _, hc3, hc4⟩
      (hrowp (w - 2) (by omega) (le_refl _)))
  have hanchor_b : reach_t w h (set_cells wall_p (row_cells w (h - 2))
      (set_cells wall_p (col_cells h (w - 2)) t)) s (c.1, h - 2) :=
    reach_t_mono hle (hreach c.1 (h - 2) ⟨hc1, hc2, by omega, le_refl _⟩
      (hcolp (h - 2) (by omega) (le_refl _)))
  have hreach_r : ∀ y : Int, 1 ≤ y → y ≤ h - 2 →
      reach_t w h (set_cells wall_p (row_cells w (h - 2))
        (set_cells wall_p (col_cells h (w - 2)) t)) s (w - 2, y) := by
    intro y h1 h2
    rcases le_total c.2 y with hy | hy
    · exact hanchor_r.trans
        (reach_t_col hy (fun j hj1 hj2 => hrightw j (by omega) (by omega)))
    · exact hanchor_r.trans (reach_t_symm
        (reach_t_col hy (fun j hj1 hj2 => hrightw j (by omega) (by omega))))
  have hreach_b : ∀ x : Int, 1 ≤ x → x ≤ w - 2 →
      reach_t w h (set_cells wall_p (row_cells w (h - 2))
        (set_cells wall_p (col_cells h (w - 2)) t)) s (x, h - 2) := by
    intro x h1 h2
    rcases le_total c.1 x with hx | hx
    · exact hanchor_b.trans
        (reach_t_row hx (fun i hi1 hi2 => hbotw i (by omega) (by omega)))
    · exact hanchor_b.trans (reach_t_symm
        (reach_t_row hx (fun i hi1 hi2 => hbotw i (by omega) (by omega))))
  refine ⟨?_, ?_, ?_, set_cells_pellet_pres _ _ (set_cells_pellet_pres _ _ hsp)⟩
  · intro a bb hain hapel
    rcases set_cells_pellet_src _ _ _ hapel with hmid | hmem
    · rcases set_cells_pellet_src _ _ _ hmid with hold | hmem'
      · exact reach_t_mono hle (hreach a bb hain hold)
      · obtain ⟨ha', h1, h2⟩ := mem_col_cells.mp hmem'
        subst ha'
        exact hreach_r bb h1 h2
    · obtain ⟨hb', h1, h2⟩ := mem_row_cells.mp hmem
      subst hb'
      exact hreach_b a h1 h2
  · intro a bb hnin
    rw [set_cells_not_mem, set_cells_not_mem]
    · exact houter a bb hnin
    · intro cc hcc he
      obtain ⟨cc1, cc2⟩ := cc
      obtain ⟨ha', h1, h2⟩ := mem_col_cells.mp hcc
      refine hnin (he ▸ ?_)
      exact ⟨ha' ▸ (by omega), ha' ▸ le_refl _, h1, h2⟩
    · intro cc hcc he
      obtain ⟨cc1, cc2⟩ := cc
      obtain ⟨hb', h1, h2⟩ := mem_row_cells.mp hcc
      refine hnin (he ▸ ?_)
      exact ⟨h1, h2, hb' ▸ (by omega), hb' ▸ le_refl _⟩
  · intro a bb hain
    exact set_cells_no_power_pres _ _
      (set_cells_no_power_pres _ _ (hpow a bb hain))

/-- C3.  In every maze produced by `generate_maze` (any seed — i.e. any
choice oracles — and any width/height), every cell holding a `PELLET` (or a
`POWER_PELLET`, of which generation in fact places none) is reachable from
the generation start cell by single-cell walkable steps, tunnel wraps
counting as legal moves. -/
theorem maze_pellets_reachable (w h : Int) (rs : Nat → Nat)
    (pick : Int × Int → Bool) (x y : Int)
    (hp : (gen_board w h rs pick).tiles y x = TILE_PELLET ∨
      (gen_board w h rs pick).tiles y x = TILE_POWER) :
    reachable (gen_board w h rs pick) (gen_start w h) (x, y) := by
  have hguard : ¬((init_board w h).width - 2 < 1 ∨
      (init_board w h).height - 2 < 1) := by
    show ¬(max 3 w - 2 < 1 ∨ max 3 h - 2 < 1)
    omega
  have hgb : gen_board w h rs pick =
      { init_board w h with
        tiles := de_double (init_board w h).width (init_board w h).height
          (carve_cross (init_board w h).width (init_board w h).height
            (center_position (init_board w h))
            (braid (init_board w h).width (init_board w h).height pick
              (dfs_tiles (init_board w h).width (init_board w h).height rs
                (wall_fill (init_board w h).width (init_board w h).height
                  (init_board w h).tiles)
                (gen_start w h))))
        tunnel_rows := fun r => r == (center_position (init_board w h)).2 ||
          (init_board w h).tunnel_rows r
        tunnel_cols := fun q => q == (center_position (init_board w h)).1 ||
          (init_board w h).tunnel_cols q } := by
    unfold gen_board generate_maze gen_start
    rw [if_neg hguard]
  have hcb : inb (max 3 w) (max 3 h) (center_position (init_board w h)) := by
    show inb _ _ (1 + ((max 3 w) - 2) / 2, 1 + ((max 3 h) - 2) / 2)
    refine ⟨?_, ?_, ?_, ?_⟩ <;> simp only <;> omega
  have hclo1 := odd_within_close hcb.1 hcb.2.1
  have hclo2 := odd_within_close hcb.2.2.1 hcb.2.2.2
  have hsb : inb (max 3 w) (max 3 h) (gen_start w h) :=
    ⟨hclo1.1, hclo1.2.1, hclo2.1, hclo2.2.1⟩
  have hclose : ((gen_start w h).1 - (center_position (init_board w h)).1).natAbs
      ≤ 1 := hclo1.2.2
  have m1 := dfs_tiles_maze_inv (w := max 3 w) (h := max 3 h) rs
    (init_board w h).tiles (s := gen_start w h) hsb
  have m2 := braid_maze_inv pick m1
  have m3 := cross_maze_inv hcb hsb hclose m2
  have m4 := de_double_maze_inv hcb m3.1 m3.2
  rw [hgb] at hp ⊢
  dsimp only at hp
  rw [show (init_board w h).width = max 3 w from rfl,
    show (init_board w h).height = max 3 h from rfl] at hp
  by_cases hin : inb (max 3 w) (max 3 h) (x, y)
  · rcases hp with hpel | hpwr
    · exact reach_t_reachable (m4.1 x y hin hpel)
    · exact absurd hpwr (m4.2.2.1 x y hin)
  · have hbase := m4.2.1 x y hin
    rw [hbase] at hp
    have hempty : (init_board w h).tiles y x = TILE_EMPTY := by
      show (if 1 ≤ y ∧ y ≤ max 3 h - 2 ∧ 1 ≤ x ∧ x ≤ max 3 w - 2
        then TILE_PELLET else TILE_EMPTY) = TILE_EMPTY
      rw [if_neg]
      intro hq
      exact hin ⟨hq.2.2.1, hq.2.2.2, hq.1, hq.2.1⟩
    rw [hempty] at hp
    rcases hp with hp | hp <;> exact absurd hp (by decide)

theorem maze_pellets_reachable_witness :
    ((gen_board 3 3 (fun _ => 0) (fun _ => false)).tiles 1 1 = TILE_PELLET ∨
      (gen_board 3 3 (fun _ => 0) (fun _ => false)).tiles 1 1 = TILE_POWER) ∧
    reachable (gen_board 3 3 (fun _ => 0) (fun _ => false)) (gen_start 3 3) (1, 1) :=
  ⟨Or.inl (by decide),
   maze_pellets_reachable 3 3 (fun _ => 0) (fun _ => false) 1 1 (Or.inl (by decide))⟩

end Mypacman
